import Mathlib

/-!
Verification development for the `fandom-cli` bulk-media downloader
(`src/fandom.py`).  The core under study is `command_download_media`
together with its helpers `_download_file`, `_download_with_backoff`,
`_destination_for_entry` and `_log_download_progress`.

Shallow embedding conventions:
* A manifest entry (a JSON object) is the structure `Entry`; a field that
  may be absent is an `Option`.  Python truthiness of strings
  (`if not url`, `name or ...`, `if sha1`) is modelled explicitly:
  `none` and `some ""` are both falsy.
* The network is an environment: for each manifest index, a finite list of
  per-attempt outcomes (`AttemptOutcome`); `shutil.disk_usage(...).free`
  is a function from the query count to the free-byte value observed.
* The destination directory is the list of paths that exist
  (`LoopState.fs`); the manifest file content is `LoopState.diskManifest`.
* Observable actions (network attempts, backoff sleeps, file creation,
  manifest rewrites, the diagnostic prints of an entry plus its
  destination, and progress-log/free-space queries) are recorded in
  order as `Event`s.  The randomized inter-download politeness sleep is
  performed by the source but recorded by no claim, so it is not traced.
* All numeric delays in the source are floats with exact integral values
  (5.0 doubling, capped at 7200.0), so they are modelled as `Nat`.
-/

namespace FandomCli

/-- `MAX_BACKOFF_SECONDS = 2 * 60 * 60` from the source. -/
def MAX_BACKOFF_SECONDS : Nat := 2 * 60 * 60

/-- `MIN_FREE_BYTES = 10 * 1024**3` from the source. -/
def MIN_FREE_BYTES : Nat := 10 * 1024 ^ 3

/-- `DOWNLOAD_LOG_INTERVAL = 50` from the source. -/
def DOWNLOAD_LOG_INTERVAL : Nat := 50

/-- One manifest entry (`AssetDescriptor`).  `none` models an absent JSON
key.  The `failure` marker is the HTTP status recorded on permanent
failure (observed value 404). -/
structure Entry where
  url : Option String
  name : Option String
  title : Option String
  sha1 : Option String
  failure : Option Nat
  deriving Repr, DecidableEq

/-- Python string truthiness: `None` and `""` are falsy. -/
def strTruthy : Option String → Bool
  | none => false
  | some s => s ≠ ""

/-- `a or b` for a possibly-absent string `a` (Python truthiness). -/
def pyStrOr (a : Option String) (b : String) : String :=
  match a with
  | none => b
  | some s => if s = "" then b else s

/-- `str(name).replace(" ", "_")` — the pattern is the single char `' '`,
so this is a character-wise replacement. -/
def sanitizeName (s : String) : String :=
  String.mk (s.data.map (fun c => if c = ' ' then '_' else c))

/-- `_destination_for_entry(media_dir, entry)`:
`name = entry.get("name") or entry.get("title", "file")`;
`sanitized = str(name).replace(" ", "_")`;
`filename = f"{sha1}_{sanitized}" if sha1 else sanitized`;
`return media_dir / filename`. -/
def destination_for_entry (mediaDir : String) (e : Entry) : String :=
  let name := pyStrOr e.name (match e.title with | some t => t | none => "file")
  let sanitized := sanitizeName name
  let filename := match e.sha1 with
    | some h => if h = "" then sanitized else h ++ "_" ++ sanitized
    | none => sanitized
  mediaDir ++ "/" ++ filename

/-- What a single `_download_file` call raised or returned, as decided by
the environment (the remote server, the transport, the local disk):
`success` is a normal return of the byte count; `httpStatus` is
`httpx.HTTPStatusError` with the given status code; `httpError` is any
other `httpx.HTTPError`; `otherError` is any other `Exception` (e.g. a
file-system failure while writing the temporary file). -/
inductive AttemptOutcome
  | success (size : Nat)
  | httpStatus (code : Nat)
  | httpError (msg : String)
  | otherError (msg : String)
  deriving Repr, DecidableEq

/-- How `_download_with_backoff`'s `try`/`except` ladder treats one
outcome: `done` returns, `permanent` re-raises `DownloadNotFoundError`
(only for status exactly 404), everything else becomes a logged message
and a retry (`transient`). -/
inductive AttemptClass
  | done (size : Nat)
  | permanent
  | transient (msg : String)
  deriving Repr, DecidableEq

/-- The `except` ladder of `_download_with_backoff` (source lines
209–219): `HTTPStatusError` with status 404 raises
`DownloadNotFoundError`; any other status is transient (`"HTTP {status}"`);
`httpx.HTTPError` is transient (`"Network error: ..."`); the blanket
`except Exception` is transient (`"Unexpected error: ..."`). -/
def classifyOutcome : AttemptOutcome → AttemptClass
  | .success n => .done n
  | .httpStatus code =>
      if code = 404 then .permanent else .transient ("HTTP " ++ toString code)
  | .httpError m => .transient ("Network error: " ++ m)
  | .otherError m => .transient ("Unexpected error: " ++ m)

/-- Observable actions of a download run, in chronological order. -/
inductive Event
  | attemptReq (idx : Nat) (url : String)
  | sleptBackoff (idx : Nat) (delay : Nat)
  | fileCreated (idx : Nat) (path : String)
  | manifestSave (m : List Entry)
  | printEntryDiag (e : Entry) (dest : String)
  | progressLog (free : Nat)
  deriving Repr, DecidableEq

/-- Is this event a network request? -/
def Event.isAttemptReq : Event → Bool
  | .attemptReq _ _ => true
  | _ => false

/-- Is this event a manifest rewrite? -/
def Event.isManifestSave : Event → Bool
  | .manifestSave _ => true
  | _ => false

/-- Is this event the diagnostic print of an entry and its destination? -/
def Event.isPrintEntryDiag : Event → Bool
  | .printEntryDiag _ _ => true
  | _ => false

/-- Is this event a file creation? -/
def Event.isFileCreated : Event → Bool
  | .fileCreated _ _ => true
  | _ => false

/-- How one `_download_with_backoff` call ended.  `envExhausted` is an
artifact of the finite outcome list of the model (the real loop would
make a further attempt); no claim concerns that case. -/
inductive BackoffResult
  | success (size : Nat)
  | notFound
  | backoffExceeded
  | envExhausted
  deriving Repr, DecidableEq

/-- The observable behaviour of one `_download_with_backoff` call:
its result, the delays actually slept (in order), the number of
network attempts made, and its events in chronological order. -/
structure BackoffRun where
  result : BackoffResult
  slept : List Nat
  attempts : Nat
  events : List Event
  deriving Repr, DecidableEq

/-- The `while True` loop of `_download_with_backoff` (source lines
208–230), consuming one environment outcome per attempt.  `delay` starts
at 5 and after each transient failure becomes `min (delay * 2)
MAX_BACKOFF_SECONDS`; if `delay >= MAX_BACKOFF_SECONDS` already holds
when a transient failure is handled, the loop raises the fatal
"backoff exceeded / aborting downloads" `RuntimeError` before sleeping. -/
def backoffLoop (url : String) (idx : Nat) :
    List AttemptOutcome → Nat → BackoffRun
  | [], _ => ⟨.envExhausted, [], 0, []⟩
  | o :: rest, delay =>
    match classifyOutcome o with
    | .done n => ⟨.success n, [], 1, [Event.attemptReq idx url]⟩
    | .permanent => ⟨.notFound, [], 1, [Event.attemptReq idx url]⟩
    | .transient _ =>
      if MAX_BACKOFF_SECONDS ≤ delay then
        ⟨.backoffExceeded, [], 1, [Event.attemptReq idx url]⟩
      else
        let r := backoffLoop url idx rest (min (delay * 2) MAX_BACKOFF_SECONDS)
        ⟨r.result, delay :: r.slept, r.attempts + 1,
          Event.attemptReq idx url :: Event.sleptBackoff idx delay :: r.events⟩

/-- `_download_with_backoff(client, url, dest)`: the loop with
`delay = 5.0`, `attempt = 1`. -/
def download_with_backoff (url : String) (idx : Nat)
    (os : List AttemptOutcome) : BackoffRun :=
  backoffLoop url idx os 5

/-! ### Transfer engine (`_download_file`) at file-content level

For claim C2 the transfer is modelled at the granularity of single chunk
writes, over a file system mapping paths to byte lists. -/

/-- A file system: path → content (`none` = no file). -/
def FileSys : Type := String → Option (List Nat)

/-- Write (create or truncate-and-replace) a file. -/
def fsWrite (fs : FileSys) (p : String) (v : List Nat) : FileSys :=
  fun q => if q = p then some v else fs q

/-- Remove a file. -/
def fsRemove (fs : FileSys) (p : String) : FileSys :=
  fun q => if q = p then none else fs q

/-- `dest.with_suffix(dest.suffix + ".part")`, which for any file name is
the sibling path `dest ++ ".part"`. -/
def partPath (dest : String) : String := dest ++ ".part"

/-- How far one streamed transfer got, as decided by the environment:
`statusError` — `resp.raise_for_status()` raised before the temporary
file was even opened; `streamInterrupted` — the given chunks were
written to the `.part` file and then the stream or a write failed;
`complete` — the whole body (the given chunks) was streamed. -/
inductive TransferOutcome
  | statusError (code : Nat)
  | streamInterrupted (written : List (List Nat))
  | complete (chunks : List (List Nat))
  deriving Repr, DecidableEq

/-- The intermediate file-system states of streaming `chunks` into the
file at `p`: opening with mode `"wb"` truncates (state for `k = 0`), and
each chunk write appends (state after `k` writes). -/
def writeStates (fs : FileSys) (p : String) (chunks : List (List Nat)) :
    List FileSys :=
  (List.range (chunks.length + 1)).map fun k =>
    fsWrite fs p ((chunks.take k).flatten)

/-- `_download_file(client, url, dest)` (source lines 194–202): stream the
body to `partPath dest`, then `tmp_path.replace(dest)` (atomic rename)
and return `dest.stat().st_size`.  Returns the result
(`none` = an exception escaped), the final file system, and the list of
intermediate file-system states in chronological order. -/
def download_file (fs : FileSys) (dest : String) (t : TransferOutcome) :
    Option Nat × FileSys × List FileSys :=
  match t with
  | .statusError _ => (none, fs, [fs])
  | .streamInterrupted written =>
      (none, fsWrite fs (partPath dest) written.flatten,
        writeStates fs (partPath dest) written)
  | .complete chunks =>
      let afterStream := fsWrite fs (partPath dest) chunks.flatten
      let renamed := fsWrite (fsRemove afterStream (partPath dest)) dest chunks.flatten
      (some chunks.flatten.length, renamed,
        writeStates fs (partPath dest) chunks ++ [renamed])

/-! ### Download orchestrator (`command_download_media`) -/

/-- The environment of one run: for every manifest index the outcomes of
its successive download attempts, and for every
`shutil.disk_usage(media_dir).free` query (counted from 0) the observed
free-byte value. -/
structure Env where
  outcomes : Nat → List AttemptOutcome
  freeBytes : Nat → Nat

/-- Why the entry loop stopped early. -/
inductive AbortKind
  | backoff
  | lowDisk
  | envExhausted
  deriving Repr, DecidableEq

/-- The mutable state of `command_download_media` during the entry loop. -/
structure LoopState where
  fs : List String
  media : List Entry
  diskManifest : List Entry
  completed : Nat
  downloadedFiles : Nat
  downloadsSinceLog : Nat
  bytesOnDisk : Nat
  logCalls : Nat
  deriving Repr, DecidableEq

/-- The body of `for entry in media` (source lines 313–356) for the entry
at position `idx`.  Returns the new state, the events of this iteration,
and `some k` when the iteration aborted the run (`return`). -/
def stepEntry (env : Env) (mediaDir : String) (idx : Nat) (e : Entry)
    (st : LoopState) : LoopState × List Event × Option AbortKind :=
  let st := {st with completed := st.completed + 1}
  if strTruthy e.url = false then (st, [], none)
  else if e.failure.isSome then (st, [], none)
  else
    let dest := destination_for_entry mediaDir e
    if dest ∈ st.fs then (st, [], none)
    else
      let r := download_with_backoff (e.url.getD "") idx (env.outcomes idx)
      match r.result with
      | .success n =>
        let st1 := {st with fs := dest :: st.fs,
                            downloadedFiles := st.downloadedFiles + 1,
                            downloadsSinceLog := st.downloadsSinceLog + 1,
                            bytesOnDisk := st.bytesOnDisk + n}
        let evs := r.events ++ [Event.fileCreated idx dest]
        if DOWNLOAD_LOG_INTERVAL ≤ st1.downloadsSinceLog then
          let free := env.freeBytes st1.logCalls
          let st2 := {st1 with logCalls := st1.logCalls + 1}
          if free < MIN_FREE_BYTES then
            (st2, evs ++ [Event.progressLog free], some .lowDisk)
          else
            ({st2 with downloadsSinceLog := 0}, evs ++ [Event.progressLog free], none)
        else (st1, evs, none)
      | .notFound =>
        let e404 := {e with failure := some 404}
        let media2 := st.media.set idx e404
        ({st with media := media2, diskManifest := media2},
          r.events ++
            [Event.manifestSave media2, Event.printEntryDiag e404 dest], none)
      | .backoffExceeded =>
        (st, r.events ++ [Event.printEntryDiag e dest], some .backoff)
      | .envExhausted => (st, r.events, some .envExhausted)

/-- The entry loop: process the remaining entries (the entry at the head
has position `idx`), stopping at the first aborting iteration. -/
def processEntries (env : Env) (mediaDir : String) :
    List Entry → Nat → LoopState → LoopState × List Event × Option AbortKind
  | [], _, st => (st, [], none)
  | e :: rest, idx, st =>
    match stepEntry env mediaDir idx e st with
    | (st1, evs, some k) => (st1, evs, some k)
    | (st1, evs, none) =>
      match processEntries env mediaDir rest (idx + 1) st1 with
      | (st2, evs2, ab) => (st2, evs ++ evs2, ab)

/-- `if args.limit: media = media[: args.limit]` — Python truthiness
makes a cap of `0` behave as no cap at all. -/
def applyLimit : Option Nat → List Entry → List Entry
  | none, m => m
  | some n, m => if n = 0 then m else m.take n

/-- How the run ended, as visible to the operator. -/
inductive ExitKind
  | emptyManifest
  | completed
  | abortBackoff
  | abortLowDisk
  | envExhausted
  deriving Repr, DecidableEq

/-- The observable outcome of one `command_download_media` run. -/
structure RunResult where
  fs : List String
  mediaMem : List Entry
  diskManifest : List Entry
  totalEntries : Nat
  completedEntries : Nat
  downloadedFiles : Nat
  bytesOnDisk : Nat
  events : List Event
  exit : ExitKind
  deriving Repr, DecidableEq

/-- The inputs of one run that come from disk and the command line:
the destination directory, the parsed manifest file, `args.limit`, the
set of files already present in the destination directory, and the
`_dir_size_bytes(media_dir)` scan result. -/
structure RunInput where
  mediaDir : String
  media0 : List Entry
  limit : Option Nat
  fs0 : List String
  initBytes : Nat

/-- `command_download_media` (source lines 277–371): slice the manifest
by the cap, run the entry loop, then the `finally` block performs one
more progress log if any downloads happened since the last one (that
log can itself abort with the low-disk condition; note that after a
mid-run low-disk abort `downloads_since_log` was not reset, so the
`finally` block queries the disk a second time). -/
def runDownload (env : Env) (inp : RunInput) : RunResult :=
  if inp.media0.isEmpty then
    ⟨inp.fs0, inp.media0, inp.media0, 0, 0, 0, inp.initBytes, [], .emptyManifest⟩
  else
    let media := applyLimit inp.limit inp.media0
    let st0 : LoopState :=
      ⟨inp.fs0, media, inp.media0, 0, 0, 0, inp.initBytes, 0⟩
    match processEntries env inp.mediaDir media 0 st0 with
    | (st1, evs, ab) =>
      let finalLog :=
        if st1.downloadsSinceLog ≠ 0 then
          some (env.freeBytes st1.logCalls)
        else none
      let evs2 := match finalLog with
        | some free => evs ++ [Event.progressLog free]
        | none => evs
      let lowAtEnd : Bool := match finalLog with
        | some free => decide (free < MIN_FREE_BYTES)
        | none => false
      let exit := match ab with
        | none => if lowAtEnd then ExitKind.abortLowDisk else ExitKind.completed
        | some .lowDisk => ExitKind.abortLowDisk
        | some .backoff => ExitKind.abortBackoff
        | some .envExhausted => ExitKind.envExhausted
      ⟨st1.fs, st1.media, st1.diskManifest, media.length, st1.completed,
        st1.downloadedFiles, st1.bytesOnDisk, evs2, exit⟩

/-! ### Derived predicates and concrete fixtures used by the theorems -/

/-- Two entries agree on every field except possibly `failure`. -/
def sameExceptFailure (a b : Entry) : Prop :=
  a.url = b.url ∧ a.name = b.name ∧ a.title = b.title ∧ a.sha1 = b.sha1

/-- `m'` is `m` with at most the `failure` fields of its entries
changed: same length, and every entry of `m'` agrees with the entry of
`m` at the same position on every field except possibly `failure`. -/
def entriesFrame (m m' : List Entry) : Prop :=
  m'.length = m.length ∧
  ∀ (j : Nat) (a : Entry), m'[j]? = some a →
    ∃ b, m[j]? = some b ∧ sameExceptFailure b a

/-- After any progress log that observed free space under the floor, no
network request occurs in the remainder of the trace. -/
def noAttemptAfterLowLog : List Event → Bool
  | [] => true
  | Event.progressLog f :: rest =>
      if f < MIN_FREE_BYTES then rest.all (fun ev => !ev.isAttemptReq)
      else noAttemptAfterLowLog rest
  | _ :: rest => noAttemptAfterLowLog rest

/-- Does the trace contain a progress log that observed free space under
the floor? -/
def hasLowLog : List Event → Bool
  | [] => false
  | Event.progressLog f :: rest => decide (f < MIN_FREE_BYTES) || hasLowLog rest
  | _ :: rest => hasLowLog rest

/-- Modelled from the amended claim C7: the destination is a function of
`(name, title, sha1)` alone — `name` if present and non-empty, else
`title` if the title field is present (even when empty), else `"file"`;
spaces become underscores; prefixed with `sha1 ++ "_"` when `sha1` is
present and non-empty. -/
def resolveAmendedSpec (mediaDir : String)
    (name title sha1 : Option String) : String :=
  let base :=
    match name with
    | some s =>
        if s = "" then (match title with | some t => t | none => "file") else s
    | none => match title with | some t => t | none => "file"
  let sanitized := String.mk (base.data.map (fun c => if c = ' ' then '_' else c))
  let filename :=
    match sha1 with
    | some h => if h = "" then sanitized else h ++ "_" ++ sanitized
    | none => sanitized
  mediaDir ++ "/" ++ filename

/-- Fixture: a plain pending entry named `a`. -/
def entryA : Entry := ⟨some "u0", some "a", none, none, none⟩

/-- Fixture: a plain pending entry named `b`. -/
def entryB : Entry := ⟨some "u1", some "b", none, none, none⟩

/-- Fixture: an entry whose `failure` marker is already set. -/
def entryF : Entry := ⟨some "u0", some "a", none, none, some 404⟩

/-- Fixture environment: every download succeeds at once, and every
free-space query observes 0 bytes free (far below the floor). -/
def envLowFree : Env := ⟨fun _ => [.success 5], fun _ => 0⟩

/-- Fixture environment: entry 0 is reported 404, everything else
succeeds; plenty of free space. -/
def envFirst404 : Env :=
  ⟨fun i => if i = 0 then [.httpStatus 404] else [.success 5],
   fun _ => MIN_FREE_BYTES⟩

/-- Fixture environment: every download succeeds at once; plenty of
free space. -/
def envAllOk : Env := ⟨fun _ => [.success 5], fun _ => MIN_FREE_BYTES⟩

/-- Fixture run input for claim C5: two pending entries, no cap. -/
def inpC5 : RunInput := ⟨"m", [entryA, entryB], none, [], 0⟩

/-- Fixture run input for claims C6 and C8: two entries, cap 1. -/
def inpCap1 : RunInput := ⟨"m", [entryA, entryB], some 1, [], 0⟩

/-- Fixture: 51 distinct pending entries (claim C9). -/
def entries51 : List Entry :=
  (List.range 51).map fun i =>
    ⟨some ("u" ++ toString i), some ("n" ++ toString i), none, none, none⟩

/-- Fixture run input for claim C9. -/
def inpC9 : RunInput := ⟨"m", entries51, none, [], 0⟩

/-- Fixture run input for the claim C1 witness: first entry already
marked failed. -/
def inpC1w : RunInput := ⟨"m", [entryF, entryB], none, [], 0⟩

/-- Fixture: entry with no `name`, no `sha1` and title `"aa"`. -/
def entryTitle1 : Entry := ⟨none, none, some "aa", none, none⟩

/-- Fixture: entry with no `name`, no `sha1` and title `"bb"`. -/
def entryTitle2 : Entry := ⟨none, none, some "bb", none, none⟩

/-- Fixture: the empty file system of the transfer-level model. -/
def fsEmpty : FileSys := fun _ => none

/-- Fixture environment: every attempt of every entry fails with a
transport error (12 outcomes per entry, enough to exceed the backoff
ceiling); plenty of free space. -/
def envAllFail : Env :=
  ⟨fun _ => List.replicate 12 (.httpError "x"), fun _ => MIN_FREE_BYTES⟩

/-- Fixture run input with the single pending entry `entryA`. -/
def inpOneA : RunInput := ⟨"m", [entryA], none, [], 0⟩

/-! ## Backoff controller lemmas -/

/-- Once the delay has reached the ceiling, a transient failure aborts at
once: nothing is slept and at most one further attempt is made. -/
lemma backoffLoop_ge_max (url : String) (idx : Nat) (os : List AttemptOutcome)
    (d : Nat) (hd : MAX_BACKOFF_SECONDS ≤ d) :
    (backoffLoop url idx os d).slept = [] ∧
    ((backoffLoop url idx os d).result = .envExhausted →
      (backoffLoop url idx os d).attempts = 0) ∧
    ((backoffLoop url idx os d).result ≠ .envExhausted →
      (backoffLoop url idx os d).attempts = 1) := by
  cases os with
  | nil => simp [backoffLoop]
  | cons o rest =>
    cases hc : classifyOutcome o with
    | done n => simp [backoffLoop, hc]
    | permanent => simp [backoffLoop, hc]
    | transient m => simp [backoffLoop, hc, if_pos hd]

/-- Core invariant of the retry loop started with delay `5 * 2 ^ j`
(`j ≤ 10`): the `k`-th slept delay is `5 * 2 ^ (j + k)`, at most
`11 - j` delays are slept, the ceiling abort happens exactly when all
of them have been slept, and the attempt count exceeds the sleep count
by exactly one unless the model's outcome list ran out. -/
lemma backoffLoop_inv (url : String) (idx : Nat) :
    ∀ (os : List AttemptOutcome) (j : Nat), j ≤ 10 →
    (∀ k x, (backoffLoop url idx os (5 * 2 ^ j)).slept[k]? = some x →
      x = 5 * 2 ^ (j + k)) ∧
    j + (backoffLoop url idx os (5 * 2 ^ j)).slept.length ≤ 11 ∧
    ((backoffLoop url idx os (5 * 2 ^ j)).result = .backoffExceeded →
      j + (backoffLoop url idx os (5 * 2 ^ j)).slept.length = 11) ∧
    ((backoffLoop url idx os (5 * 2 ^ j)).result = .envExhausted →
      (backoffLoop url idx os (5 * 2 ^ j)).attempts =
        (backoffLoop url idx os (5 * 2 ^ j)).slept.length) ∧
    ((backoffLoop url idx os (5 * 2 ^ j)).result ≠ .envExhausted →
      (backoffLoop url idx os (5 * 2 ^ j)).attempts =
        (backoffLoop url idx os (5 * 2 ^ j)).slept.length + 1) := by
  intro os
  induction os with
  | nil => intro j hj; simp [backoffLoop]; omega
  | cons o rest ih =>
    intro j hj
    have hpow : (2:Nat) ^ j ≤ 2 ^ 10 := Nat.pow_le_pow_right (by norm_num) hj
    have h10 : (2:Nat) ^ 10 = 1024 := by norm_num
    have hmax : MAX_BACKOFF_SECONDS = 7200 := by norm_num [MAX_BACKOFF_SECONDS]
    have hlt : 5 * 2 ^ j < MAX_BACKOFF_SECONDS := by omega
    cases hc : classifyOutcome o with
    | done n => simp [backoffLoop, hc]; omega
    | permanent => simp [backoffLoop, hc]; omega
    | transient m =>
      rcases Nat.lt_or_ge j 10 with hj10 | hj10
      · have hmin : min (5 * 2 ^ j * 2) MAX_BACKOFF_SECONDS = 5 * 2 ^ (j + 1) := by
          have hp1 : (2:Nat) ^ (j+1) ≤ 2 ^ 10 :=
            Nat.pow_le_pow_right (by norm_num) (by omega)
          have he : 5 * 2 ^ j * 2 = 5 * 2 ^ (j + 1) := by ring
          rw [he]; exact min_eq_left (by omega)
        obtain ⟨h1, h2, h3, h4, h5⟩ := ih (j + 1) (by omega)
        simp only [backoffLoop, hc, if_neg (Nat.not_le.mpr hlt), hmin]
        refine ⟨?_, ?_, ?_, ?_, ?_⟩
        · intro k x hk
          cases k with
          | zero =>
            simp only [List.getElem?_cons_zero, Option.some.injEq] at hk
            rw [Nat.add_zero]; omega
          | succ k' =>
            simp only [List.getElem?_cons_succ] at hk
            have := h1 k' x hk
            have harith : j + 1 + k' = j + (k' + 1) := by omega
            rw [← harith]; exact this
        · simp only [List.length_cons]; omega
        · intro hres
          simp only [List.length_cons]
          have := h3 hres
          omega
        · intro hres
          simp only [List.length_cons]
          have := h4 hres
          omega
        · intro hres
          simp only [List.length_cons]
          have := h5 hres
          omega
      · have hj' : j = 10 := by omega
        subst hj'
        have hmin : min (5 * 2 ^ 10 * 2) MAX_BACKOFF_SECONDS =
            MAX_BACKOFF_SECONDS := by
          apply min_eq_right; omega
        obtain ⟨g1, g2, g3⟩ :=
          backoffLoop_ge_max url idx rest MAX_BACKOFF_SECONDS (le_refl _)
        simp only [backoffLoop, hc, if_neg (Nat.not_le.mpr hlt), hmin]
        refine ⟨?_, ?_, ?_, ?_, ?_⟩
        · intro k x hk
          cases k with
          | zero =>
            simp only [List.getElem?_cons_zero, Option.some.injEq] at hk
            rw [Nat.add_zero]; omega
          | succ k' => simp only [List.getElem?_cons_succ, g1] at hk; simp at hk
        · simp [g1]
        · intro _; simp [g1]
        · intro hres
          have := g2 hres
          simp [g1, this]
        · intro hres
          have := g3 hres
          simp [g1, this]

/-- Every event of a backoff run is a network attempt or a backoff sleep,
tagged with this entry's index. -/
lemma backoffLoop_events_shape (url : String) (idx : Nat) :
    ∀ (os : List AttemptOutcome) (d : Nat),
    ∀ ev ∈ (backoffLoop url idx os d).events,
      ev = Event.attemptReq idx url ∨ ∃ s, ev = Event.sleptBackoff idx s := by
  intro os
  induction os with
  | nil => intro d ev hev; simp [backoffLoop] at hev
  | cons o rest ih =>
    intro d ev hev
    cases hc : classifyOutcome o with
    | done n => simp [backoffLoop, hc] at hev; simp [hev]
    | permanent => simp [backoffLoop, hc] at hev; simp [hev]
    | transient m =>
      by_cases hd : MAX_BACKOFF_SECONDS ≤ d
      · simp [backoffLoop, hc, if_pos hd] at hev; simp [hev]
      · simp only [backoffLoop, hc, if_neg hd, List.mem_cons] at hev
        rcases hev with h | h | h
        · exact Or.inl h
        · exact Or.inr ⟨d, h⟩
        · exact ih _ ev h

/-- The number of network-attempt events of a backoff run equals its
attempt count. -/
lemma backoffLoop_events_count (url : String) (idx : Nat) :
    ∀ (os : List AttemptOutcome) (d : Nat),
    ((backoffLoop url idx os d).events.filter Event.isAttemptReq).length =
      (backoffLoop url idx os d).attempts := by
  intro os
  induction os with
  | nil => intro d; simp [backoffLoop]
  | cons o rest ih =>
    intro d
    cases hc : classifyOutcome o with
    | done n => simp [backoffLoop, hc, Event.isAttemptReq]
    | permanent => simp [backoffLoop, hc, Event.isAttemptReq]
    | transient m =>
      by_cases hd : MAX_BACKOFF_SECONDS ≤ d
      · simp [backoffLoop, hc, if_pos hd, Event.isAttemptReq]
      · simp only [backoffLoop, hc, if_neg hd]
        simp [List.filter, Event.isAttemptReq, ih]

/-- If a backoff run ends in `notFound`, the 404 arrived on its last
attempt — every earlier attempt was transient and nothing follows it. -/
lemma backoffLoop_notFound_char (url : String) (idx : Nat) :
    ∀ (os : List AttemptOutcome) (d : Nat),
    (backoffLoop url idx os d).result = .notFound →
    ∃ k o, (backoffLoop url idx os d).attempts = k + 1 ∧
      os[k]? = some o ∧ classifyOutcome o = .permanent ∧
      ∀ j, j < k → ∃ oj mj, os[j]? = some oj ∧
        classifyOutcome oj = .transient mj := by
  intro os
  induction os with
  | nil => intro d h; simp [backoffLoop] at h
  | cons o rest ih =>
    intro d h
    cases hc : classifyOutcome o with
    | done n => simp [backoffLoop, hc] at h
    | permanent =>
      refine ⟨0, o, ?_, by simp, hc, by omega⟩
      simp [backoffLoop, hc]
    | transient m =>
      by_cases hd : MAX_BACKOFF_SECONDS ≤ d
      · simp [backoffLoop, hc, if_pos hd] at h
      · simp only [backoffLoop, hc, if_neg hd] at h ⊢
        obtain ⟨k, o', ha, hg, hp, htr⟩ := ih _ h
        refine ⟨k + 1, o', by simp [ha], by simpa using hg, hp, ?_⟩
        intro j hj
        cases j with
        | zero => exact ⟨o, m, by simp, hc⟩
        | succ j' =>
          obtain ⟨oj, mj, h1, h2⟩ := htr j' (by omega)
          exact ⟨oj, mj, by simpa using h1, h2⟩

/-- C3.  Backoff schedule: for every sequence of attempt outcomes, the
`k`-th slept delay is `5 * 2 ^ k` (5 s doubling), at most 11 delays are
slept, the slept sequence is non-decreasing and strictly below the
2-hour ceiling, at most 12 attempts are made, and the fatal
backoff-exceeded abort happens exactly on the transient failure whose
computed delay reached the ceiling — before sleeping it. -/
theorem c3_backoff_schedule (url : String) (idx : Nat)
    (os : List AttemptOutcome) :
    (∀ k x : Nat, (download_with_backoff url idx os).slept[k]? = some x →
      x = 5 * 2 ^ k) ∧
    (download_with_backoff url idx os).slept.length ≤ 11 ∧
    List.Chain' (fun a b => a ≤ b) (download_with_backoff url idx os).slept ∧
    (∀ d ∈ (download_with_backoff url idx os).slept,
      d < MAX_BACKOFF_SECONDS) ∧
    (download_with_backoff url idx os).attempts ≤ 12 ∧
    ((download_with_backoff url idx os).result = .backoffExceeded →
      (download_with_backoff url idx os).slept.length = 11 ∧
      (download_with_backoff url idx os).attempts = 12) := by
  obtain ⟨h1, h2, h3, h4, h5⟩ := backoffLoop_inv url idx os 0 (by norm_num)
  have e : backoffLoop url idx os (5 * 2 ^ 0) = download_with_backoff url idx os := by
    norm_num [download_with_backoff]
  rw [e] at h1 h2 h3 h4 h5
  have hk0 : ∀ k x : Nat, (download_with_backoff url idx os).slept[k]? = some x →
      x = 5 * 2 ^ k := by
    intro k x hk
    have := h1 k x hk
    simpa using this
  have hmem : ∀ d ∈ (download_with_backoff url idx os).slept,
      d < MAX_BACKOFF_SECONDS := by
    intro d hd
    obtain ⟨i, hi⟩ := List.mem_iff_getElem?.mp hd
    have hval := hk0 i d hi
    have hlen : i < (download_with_backoff url idx os).slept.length := by
      rw [List.getElem?_eq_some] at hi; exact hi.1
    have hi10 : i ≤ 10 := by omega
    have hp : (2:Nat) ^ i ≤ 2 ^ 10 := Nat.pow_le_pow_right (by norm_num) hi10
    have h10 : (2:Nat) ^ 10 = 1024 := by norm_num
    have hmax : MAX_BACKOFF_SECONDS = 7200 := by norm_num [MAX_BACKOFF_SECONDS]
    omega
  refine ⟨hk0, by omega, ?_, hmem, ?_, ?_⟩
  · rw [List.chain'_iff_get]
    intro i hi
    have hl1 : i < (download_with_backoff url idx os).slept.length := by omega
    have hl2 : i + 1 < (download_with_backoff url idx os).slept.length := by omega
    have e1 := hk0 i _ (List.getElem?_eq_getElem hl1)
    have e2 := hk0 (i + 1) _ (List.getElem?_eq_getElem hl2)
    simp only [List.get_eq_getElem]
    rw [e1, e2]
    have hp : (2:Nat) ^ i ≤ 2 ^ (i + 1) :=
      Nat.pow_le_pow_right (by norm_num) (by omega)
    omega
  · by_cases hres : (download_with_backoff url idx os).result = .envExhausted
    · have := h4 hres; omega
    · have := h5 hres; omega
  · intro hres
    have ha := h3 hres
    have hne : (download_with_backoff url idx os).result ≠ .envExhausted := by
      rw [hres]; intro hcon; cases hcon
    have := h5 hne
    omega

/-- Witness for C3: twelve consecutive transport errors make the loop
sleep 5, 10, …, 5120 s and then abort with the ceiling exceeded on the
12th attempt. -/
theorem c3_witness :
    (download_with_backoff "u" 0
        (List.replicate 12 (AttemptOutcome.httpError "x"))).result =
      .backoffExceeded ∧
    (download_with_backoff "u" 0
        (List.replicate 12 (AttemptOutcome.httpError "x"))).slept.length = 11 ∧
    (download_with_backoff "u" 0
        (List.replicate 12 (AttemptOutcome.httpError "x"))).attempts = 12 ∧
    (download_with_backoff "u" 0
        (List.replicate 12 (AttemptOutcome.httpError "x"))).slept[0]? = some 5 := by
  have h := c3_backoff_schedule "u" 0
    (List.replicate 12 (AttemptOutcome.httpError "x"))
  have hres : (download_with_backoff "u" 0
      (List.replicate 12 (AttemptOutcome.httpError "x"))).result =
        .backoffExceeded := by decide
  obtain ⟨hlen, hatt⟩ := h.2.2.2.2.2 hres
  exact ⟨hres, hlen, hatt, by decide⟩

/-- C10.  Error classification in `_download_with_backoff`: an attempt
outcome is permanent iff it is an HTTP status error with code exactly
404; every raised exception other than that — another HTTP status, a
transport error, or any other exception (the blanket handler) — is
transient; and a transient outcome below the ceiling is retried with
backoff: one request, one sleep of the current delay, then the loop
continues with the doubled (capped) delay. -/
theorem c10_error_classification :
    (∀ o : AttemptOutcome,
      classifyOutcome o = .permanent ↔ o = .httpStatus 404) ∧
    (∀ o : AttemptOutcome,
      (∃ m, classifyOutcome o = .transient m) ↔
        (o ≠ .httpStatus 404 ∧ ∀ n, o ≠ .success n)) ∧
    (∀ (url : String) (idx : Nat) (o : AttemptOutcome)
        (rest : List AttemptOutcome) (d : Nat) (m : String),
      classifyOutcome o = .transient m → d < MAX_BACKOFF_SECONDS →
      backoffLoop url idx (o :: rest) d =
        ⟨(backoffLoop url idx rest (min (d * 2) MAX_BACKOFF_SECONDS)).result,
         d :: (backoffLoop url idx rest (min (d * 2) MAX_BACKOFF_SECONDS)).slept,
         (backoffLoop url idx rest (min (d * 2) MAX_BACKOFF_SECONDS)).attempts + 1,
         Event.attemptReq idx url :: Event.sleptBackoff idx d ::
           (backoffLoop url idx rest (min (d * 2) MAX_BACKOFF_SECONDS)).events⟩) := by
  refine ⟨?_, ?_, ?_⟩
  · intro o
    cases o with
    | success n => simp [classifyOutcome]
    | httpStatus c =>
      by_cases hc : c = 404
      · subst hc; simp [classifyOutcome]
      · simp [classifyOutcome, hc]
    | httpError m => simp [classifyOutcome]
    | otherError m => simp [classifyOutcome]
  · intro o
    cases o with
    | success n => simp [classifyOutcome]
    | httpStatus c =>
      by_cases hc : c = 404
      · subst hc; simp [classifyOutcome]
      · simp [classifyOutcome, hc]
    | httpError m => simp [classifyOutcome]
    | otherError m => simp [classifyOutcome]
  · intro url idx o rest d m hc hd
    simp [backoffLoop, hc, if_neg (Nat.not_le.mpr hd)]

/-- Witness for C10: a transport error is transient and, below the
ceiling, triggers a retry (request, then sleep of the current delay);
status 404 is permanent. -/
theorem c10_witness :
    backoffLoop "u" 0 [AttemptOutcome.httpError "boom"] 5 =
      ⟨.envExhausted, [5], 1,
        [Event.attemptReq 0 "u", Event.sleptBackoff 0 5]⟩ ∧
    classifyOutcome (.httpStatus 404) = .permanent := by
  have h := c10_error_classification
  constructor
  · exact (h.2.2 "u" 0 (.httpError "boom") [] 5 ("Network error: " ++ "boom")
      rfl (by decide)).trans (by decide)
  · exact (h.1 (.httpStatus 404)).mpr rfl

/-! ## Transfer engine lemmas -/

/-- The temporary path is distinct from the destination path. -/
lemma partPath_ne (dest : String) : partPath dest ≠ dest := by
  intro h
  have hlen := congrArg String.length h
  rw [partPath, String.length_append] at hlen
  have : (".part" : String).length = 5 := by decide
  omega

/-- Reading a path other than the written one is unchanged. -/
lemma fsWrite_ne (fs : FileSys) (p : String) (v : List Nat) (q : String)
    (h : q ≠ p) : fsWrite fs p v q = fs q := by
  simp [fsWrite, h]

/-- Reading the written path yields the written content. -/
lemma fsWrite_eq (fs : FileSys) (p : String) (v : List Nat) :
    fsWrite fs p v p = some v := by
  simp [fsWrite]

/-- Every intermediate state of a stream into `p` is a single write
to `p` of a prefix of the chunks. -/
lemma mem_writeStates (fs : FileSys) (p : String) (chunks : List (List Nat))
    (s : FileSys) (hs : s ∈ writeStates fs p chunks) :
    ∃ k, s = fsWrite fs p ((chunks.take k).flatten) := by
  obtain ⟨k, _, hk⟩ := List.mem_map.mp hs
  exact ⟨k, hk.symm⟩

/-- C2.  Transfer atomicity: `_download_file` writes only to the `.part`
sibling during the stream; at no intermediate state does the destination
path change; an attempt that fails (for any reason) leaves the
destination exactly as it was; the rename happens only when the stream
completed, in which case the destination holds the full body, the
`.part` file is gone, and the returned value is the byte size of the
completed destination file. -/
theorem c2_transfer_atomicity (fs : FileSys) (dest : String)
    (t : TransferOutcome) :
    (∀ s ∈ (download_file fs dest t).2.2, ∀ q : String,
      q ≠ partPath dest → q ≠ dest → s q = fs q) ∧
    (∀ s ∈ (download_file fs dest t).2.2,
      s dest = fs dest ∨ ∃ cs, t = .complete cs ∧ s dest = some cs.flatten) ∧
    ((download_file fs dest t).1 = none →
      (download_file fs dest t).2.1 dest = fs dest) ∧
    (∀ cs, t = .complete cs →
      (download_file fs dest t).1 = some cs.flatten.length ∧
      (download_file fs dest t).2.1 dest = some cs.flatten ∧
      (download_file fs dest t).2.1 (partPath dest) = none) ∧
    ((download_file fs dest t).1 = none ↔ ∀ cs, t ≠ .complete cs) := by
  have hne : dest ≠ partPath dest := fun h => partPath_ne dest h.symm
  cases t with
  | statusError c =>
    refine ⟨?_, ?_, ?_, ?_, ?_⟩
    · intro s hs q _ _
      simp [download_file] at hs
      rw [hs]
    · intro s hs
      simp [download_file] at hs
      rw [hs]; exact Or.inl rfl
    · intro _; rfl
    · intro cs hcs; cases hcs
    · simp [download_file]
  | streamInterrupted w =>
    refine ⟨?_, ?_, ?_, ?_, ?_⟩
    · intro s hs q hq _
      obtain ⟨k, hk⟩ := mem_writeStates fs (partPath dest) w s hs
      rw [hk]; exact fsWrite_ne _ _ _ _ hq
    · intro s hs
      obtain ⟨k, hk⟩ := mem_writeStates fs (partPath dest) w s hs
      rw [hk]; exact Or.inl (fsWrite_ne _ _ _ _ hne)
    · intro _
      exact fsWrite_ne _ _ _ _ hne
    · intro cs hcs; cases hcs
    · simp [download_file]
  | complete cs =>
    refine ⟨?_, ?_, ?_, ?_, ?_⟩
    · intro s hs q hq hq'
      simp only [download_file, List.mem_append, List.mem_singleton] at hs
      rcases hs with hs | hs
      · obtain ⟨k, hk⟩ := mem_writeStates fs (partPath dest) cs s hs
        rw [hk]; exact fsWrite_ne _ _ _ _ hq
      · rw [hs, fsWrite_ne _ _ _ _ hq', fsRemove, if_neg hq,
          fsWrite_ne _ _ _ _ hq]
    · intro s hs
      simp only [download_file, List.mem_append, List.mem_singleton] at hs
      rcases hs with hs | hs
      · obtain ⟨k, hk⟩ := mem_writeStates fs (partPath dest) cs s hs
        rw [hk]; exact Or.inl (fsWrite_ne _ _ _ _ hne)
      · refine Or.inr ⟨cs, rfl, ?_⟩
        rw [hs]; exact fsWrite_eq _ _ _
    · intro h; cases h
    · intro cs' hcs'
      cases hcs'
      refine ⟨rfl, fsWrite_eq _ _ _, ?_⟩
      show fsWrite (fsRemove (fsWrite fs (partPath dest) cs.flatten)
        (partPath dest)) dest cs.flatten (partPath dest) = none
      rw [fsWrite_ne _ _ _ _ (partPath_ne dest), fsRemove, if_pos rfl]
    · simp [download_file]

/-- Witness for C2: streaming two chunks of total length 3 into an empty
file system puts the full body at the destination, removes the `.part`
file, and returns 3. -/
theorem c2_witness :
    (download_file fsEmpty "a" (.complete [[1, 2], [3]])).1 = some 3 ∧
    (download_file fsEmpty "a" (.complete [[1, 2], [3]])).2.1 "a" =
      some [1, 2, 3] ∧
    (download_file fsEmpty "a" (.complete [[1, 2], [3]])).2.1 (partPath "a") =
      none := by
  have h := (c2_transfer_atomicity fsEmpty "a"
    (.complete [[1, 2], [3]])).2.2.2.1 [[1, 2], [3]] rfl
  exact ⟨h.1.trans (by decide), h.2.1.trans (by decide), h.2.2⟩

/-! ## Destination resolver -/

/-- Counterexample for C7 as stated: two descriptors with the same
`name` (absent) and the same `sha1` (absent) but different titles
resolve to different paths, so the resolver is not a function of
`(name, sha1)` alone. -/
theorem c7_counterexample :
    entryTitle1.name = entryTitle2.name ∧
    entryTitle1.sha1 = entryTitle2.sha1 ∧
    destination_for_entry "m" entryTitle1 ≠
      destination_for_entry "m" entryTitle2 := by
  exact ⟨rfl, rfl, by decide⟩

/-- C7 amended.  The resolver is a pure, deterministic function of
`(name, title, sha1)`: the base name is `name` when present and
non-empty, else `title` when the title field is present (even empty),
else `"file"`; spaces become underscores; `sha1 ++ "_"` is prefixed when
the hash is present and non-empty.  Two descriptors agreeing on those
three fields resolve to the same path. -/
theorem c7_resolver_deterministic :
    (∀ (d : String) (e1 e2 : Entry), e1.name = e2.name →
      e1.title = e2.title → e1.sha1 = e2.sha1 →
      destination_for_entry d e1 = destination_for_entry d e2) ∧
    (∀ (d : String) (e : Entry),
      destination_for_entry d e = resolveAmendedSpec d e.name e.title e.sha1) := by
  have key : ∀ (d : String) (e : Entry),
      destination_for_entry d e =
        resolveAmendedSpec d e.name e.title e.sha1 := by
    intro d e
    rcases e with ⟨u, n, t, s, f⟩
    cases n <;> cases t <;> cases s <;> rfl
  refine ⟨?_, key⟩
  intro d e1 e2 hn ht hs
  rw [key d e1, key d e2, hn, ht, hs]

/-- Witness for C7 amended: an entry agreeing with `entryA` on
`(name, title, sha1)` resolves to the same path, and a title-only entry
matches the amended formula. -/
theorem c7_witness :
    destination_for_entry "m" entryA =
      destination_for_entry "m" ⟨some "other", some "a", none, none, some 404⟩ ∧
    destination_for_entry "m" entryTitle1 =
      resolveAmendedSpec "m" none (some "aa") none := by
  have h := c7_resolver_deterministic
  exact ⟨h.1 "m" entryA ⟨some "other", some "a", none, none, some 404⟩ rfl rfl rfl,
    h.2 "m" entryTitle1⟩

/-! ## Trace helper lemmas -/

/-- The events of a backoff run are attempts and sleeps of its entry. -/
lemma download_events_shape (url : String) (idx : Nat)
    (os : List AttemptOutcome) :
    ∀ ev ∈ (download_with_backoff url idx os).events,
      ev = Event.attemptReq idx url ∨ ∃ s, ev = Event.sleptBackoff idx s :=
  backoffLoop_events_shape url idx os 5

/-- The number of attempt events of a backoff run is its attempt count. -/
lemma download_events_count (url : String) (idx : Nat)
    (os : List AttemptOutcome) :
    ((download_with_backoff url idx os).events.filter Event.isAttemptReq).length =
      (download_with_backoff url idx os).attempts :=
  backoffLoop_events_count url idx os 5

/-- A trace with a low progress log splits as prefix, low log, suffix. -/
lemma hasLowLog_append : ∀ a b : List Event,
    hasLowLog (a ++ b) = (hasLowLog a || hasLowLog b) := by
  intro a b
  induction a with
  | nil => simp [hasLowLog]
  | cons ev rest ih =>
    cases ev <;> simp [hasLowLog, ih, Bool.or_assoc]

/-- A trace without progress-log events has no low log. -/
lemma hasLowLog_of_noLog : ∀ evs : List Event,
    (∀ f, Event.progressLog f ∉ evs) → hasLowLog evs = false := by
  intro evs
  induction evs with
  | nil => intro _; rfl
  | cons ev rest ih =>
    intro h
    have hrest : ∀ f, Event.progressLog f ∉ rest := by
      intro f hf
      exact h f (List.mem_cons_of_mem _ hf)
    cases ev with
    | progressLog f => exact absurd (List.mem_cons_self _ _) (h f)
    | attemptReq i u => simpa [hasLowLog] using ih hrest
    | sleptBackoff i d => simpa [hasLowLog] using ih hrest
    | fileCreated i p => simpa [hasLowLog] using ih hrest
    | manifestSave m => simpa [hasLowLog] using ih hrest
    | printEntryDiag e d => simpa [hasLowLog] using ih hrest

/-- A trace whose progress logs are all above the floor trivially has no
attempt after a low log. -/
lemma noAttemptAfter_of_noLow : ∀ evs, hasLowLog evs = false →
    noAttemptAfterLowLog evs = true := by
  intro evs
  induction evs with
  | nil => intro _; rfl
  | cons ev rest ih =>
    intro h
    cases ev with
    | progressLog f =>
      simp [hasLowLog] at h
      simp [noAttemptAfterLowLog, h.1, ih h.2]
    | attemptReq i u => simp [hasLowLog] at h; simp [noAttemptAfterLowLog, ih h]
    | sleptBackoff i d => simp [hasLowLog] at h; simp [noAttemptAfterLowLog, ih h]
    | fileCreated i p => simp [hasLowLog] at h; simp [noAttemptAfterLowLog, ih h]
    | manifestSave m => simp [hasLowLog] at h; simp [noAttemptAfterLowLog, ih h]
    | printEntryDiag e d => simp [hasLowLog] at h; simp [noAttemptAfterLowLog, ih h]

/-- A backoff run's events contain no progress log, no manifest save, no
file creation and no diagnostic print. -/
lemma download_events_aux (url : String) (idx : Nat)
    (os : List AttemptOutcome) :
    hasLowLog (download_with_backoff url idx os).events = false ∧
    (download_with_backoff url idx os).events.filter Event.isManifestSave = [] ∧
    (download_with_backoff url idx os).events.filter Event.isFileCreated = [] ∧
    (download_with_backoff url idx os).events.filter Event.isPrintEntryDiag = [] := by
  have hs := download_events_shape url idx os
  refine ⟨?_, ?_, ?_, ?_⟩
  · apply hasLowLog_of_noLog
    intro f hf
    rcases hs _ hf with h | ⟨s, h⟩ <;> cases h
  all_goals
    rw [List.filter_eq_nil_iff]
    intro ev hev
    rcases hs ev hev with h | ⟨s, h⟩ <;> subst h <;>
      simp [Event.isManifestSave, Event.isFileCreated, Event.isPrintEntryDiag]

/-! ## Orchestrator step lemmas -/

/-- A non-truthy url, a set `failure` marker, or an existing destination
file makes the iteration a pure skip: only the processed counter moves,
no event happens, the loop continues. -/
lemma stepEntry_skip (env : Env) (mediaDir : String) (idx : Nat) (e : Entry)
    (st : LoopState)
    (h : strTruthy e.url = false ∨ e.failure.isSome = true ∨
      destination_for_entry mediaDir e ∈ st.fs) :
    stepEntry env mediaDir idx e st =
      ({st with completed := st.completed + 1}, [], none) := by
  by_cases h1 : strTruthy e.url = false
  · simp [stepEntry, h1]
  · by_cases h2 : e.failure.isSome
    · simp [stepEntry, h1, h2]
    · by_cases h3 : destination_for_entry mediaDir e ∈ st.fs
      · simp [stepEntry, h1, h2, h3]
      · rcases h with h | h | h <;> simp_all

/-- One iteration either leaves the destination directory unchanged or
creates exactly the entry's resolved destination file. -/
lemma stepEntry_fs (env : Env) (mediaDir : String) (idx : Nat) (e : Entry)
    (st : LoopState) :
    (stepEntry env mediaDir idx e st).1.fs = st.fs ∨
    (stepEntry env mediaDir idx e st).1.fs =
      destination_for_entry mediaDir e :: st.fs := by
  by_cases h1 : strTruthy e.url = false
  · simp [stepEntry, h1]
  · by_cases h2 : e.failure.isSome
    · simp [stepEntry, h1, h2]
    · by_cases h3 : destination_for_entry mediaDir e ∈ st.fs
      · simp [stepEntry, h1, h2, h3]
      · rcases hr : (download_with_backoff (e.url.getD "") idx
            (env.outcomes idx)).result with n | _ | _ | _ <;>
          simp [stepEntry, h1, h2, h3, hr] <;>
          split <;> (try split) <;> simp

/-- One iteration either leaves the in-memory manifest unchanged or sets
the `failure` marker of its own entry. -/
lemma stepEntry_media (env : Env) (mediaDir : String) (idx : Nat) (e : Entry)
    (st : LoopState) :
    (stepEntry env mediaDir idx e st).1.media = st.media ∨
    (stepEntry env mediaDir idx e st).1.media =
      st.media.set idx {e with failure := some 404} := by
  by_cases h1 : strTruthy e.url = false
  · simp [stepEntry, h1]
  · by_cases h2 : e.failure.isSome
    · simp [stepEntry, h1, h2]
    · by_cases h3 : destination_for_entry mediaDir e ∈ st.fs
      · simp [stepEntry, h1, h2, h3]
      · rcases hr : (download_with_backoff (e.url.getD "") idx
            (env.outcomes idx)).result with n | _ | _ | _ <;>
          simp [stepEntry, h1, h2, h3, hr] <;>
          split <;> (try split) <;> simp

/-- One iteration either leaves the manifest file unchanged or rewrites
it with the in-memory manifest whose own entry was just marked. -/
lemma stepEntry_disk (env : Env) (mediaDir : String) (idx : Nat) (e : Entry)
    (st : LoopState) :
    (stepEntry env mediaDir idx e st).1.diskManifest = st.diskManifest ∨
    ((stepEntry env mediaDir idx e st).1.diskManifest =
        st.media.set idx {e with failure := some 404} ∧
      (stepEntry env mediaDir idx e st).1.media =
        st.media.set idx {e with failure := some 404}) := by
  by_cases h1 : strTruthy e.url = false
  · simp [stepEntry, h1]
  · by_cases h2 : e.failure.isSome
    · simp [stepEntry, h1, h2]
    · by_cases h3 : destination_for_entry mediaDir e ∈ st.fs
      · simp [stepEntry, h1, h2, h3]
      · rcases hr : (download_with_backoff (e.url.getD "") idx
            (env.outcomes idx)).result with n | _ | _ | _ <;>
          simp [stepEntry, h1, h2, h3, hr] <;>
          split <;> (try split) <;> simp

/-- Every network request of one iteration is for its own entry. -/
lemma stepEntry_attempt_idx (env : Env) (mediaDir : String) (idx : Nat)
    (e : Entry) (st : LoopState) (j : Nat) (u : String)
    (hj : Event.attemptReq j u ∈ (stepEntry env mediaDir idx e st).2.1) :
    j = idx := by
  have hs := download_events_shape (e.url.getD "") idx (env.outcomes idx)
  by_cases h1 : strTruthy e.url = false
  · simp [stepEntry, h1] at hj
  · by_cases h2 : e.failure.isSome
    · simp [stepEntry, h1, h2] at hj
    · by_cases h3 : destination_for_entry mediaDir e ∈ st.fs
      · simp [stepEntry, h1, h2, h3] at hj
      · rcases hr : (download_with_backoff (e.url.getD "") idx
            (env.outcomes idx)).result with n | _ | _ | _
        · by_cases h4 : DOWNLOAD_LOG_INTERVAL ≤ st.downloadsSinceLog + 1
          · by_cases h5 : env.freeBytes st.logCalls < MIN_FREE_BYTES <;>
              simp [stepEntry, h1, h2, h3, hr, h4, h5] at hj <;>
              rcases hs _ hj with h | ⟨s, h⟩ <;> simp at h <;> omega
          · simp [stepEntry, h1, h2, h3, hr, h4] at hj
            rcases hs _ hj with h | ⟨s, h⟩ <;> simp at h <;> omega
        · simp [stepEntry, h1, h2, h3, hr] at hj
          rcases hs _ hj with h | ⟨s, h⟩ <;> simp at h <;> omega
        · simp [stepEntry, h1, h2, h3, hr] at hj
          rcases hs _ hj with h | ⟨s, h⟩ <;> simp at h <;> omega
        · simp [stepEntry, h1, h2, h3, hr] at hj
          rcases hs _ hj with h | ⟨s, h⟩ <;> simp at h <;> omega

/-- Unless the backoff run ended in `notFound`, the iteration neither
touches the in-memory manifest nor the manifest file, and it emits no
manifest-save event. -/
lemma stepEntry_no_save (env : Env) (mediaDir : String) (idx : Nat) (e : Entry)
    (st : LoopState)
    (h : (download_with_backoff (e.url.getD "") idx
      (env.outcomes idx)).result ≠ .notFound) :
    (stepEntry env mediaDir idx e st).1.media = st.media ∧
    (stepEntry env mediaDir idx e st).1.diskManifest = st.diskManifest ∧
    (stepEntry env mediaDir idx e st).2.1.filter Event.isManifestSave = [] := by
  have haux := (download_events_aux (e.url.getD "") idx (env.outcomes idx)).2.1
  by_cases h1 : strTruthy e.url = false
  · simp [stepEntry, h1]
  · by_cases h2 : e.failure.isSome
    · simp [stepEntry, h1, h2]
    · by_cases h3 : destination_for_entry mediaDir e ∈ st.fs
      · simp [stepEntry, h1, h2, h3]
      · rcases hr : (download_with_backoff (e.url.getD "") idx
            (env.outcomes idx)).result with n | _ | _ | _
        · by_cases h4 : DOWNLOAD_LOG_INTERVAL ≤ st.downloadsSinceLog + 1
          · by_cases h5 : env.freeBytes st.logCalls < MIN_FREE_BYTES <;>
              simp [stepEntry, h1, h2, h3, hr, h4, h5, List.filter_append,
                haux, Event.isManifestSave]
          · simp [stepEntry, h1, h2, h3, hr, h4, List.filter_append,
              haux, Event.isManifestSave]
        · exact absurd hr h
        · simp [stepEntry, h1, h2, h3, hr, List.filter_append,
            haux, Event.isManifestSave]
        · simp [stepEntry, h1, h2, h3, hr, List.filter_append, haux]

/-- A single progress-log event never violates the low-log property. -/
lemma noAttemptAfter_singleLog (f : Nat) :
    noAttemptAfterLowLog [Event.progressLog f] = true := by
  simp only [noAttemptAfterLowLog]
  split <;> rfl

/-- Prepending a trace without low logs preserves the property. -/
lemma noAttemptAfter_append_noLow : ∀ a b : List Event,
    hasLowLog a = false → noAttemptAfterLowLog b = true →
    noAttemptAfterLowLog (a ++ b) = true := by
  intro a
  induction a with
  | nil => intro b _ hb; simpa using hb
  | cons ev rest ih =>
    intro b ha hb
    cases ev with
    | progressLog f =>
      simp [hasLowLog] at ha
      have : ¬ f < MIN_FREE_BYTES := Nat.not_lt.mpr ha.1
      simp [noAttemptAfterLowLog, this]
      exact ih b ha.2 hb
    | attemptReq i u =>
      simp [hasLowLog] at ha
      simp [noAttemptAfterLowLog]
      exact ih b ha hb
    | sleptBackoff i d =>
      simp [hasLowLog] at ha
      simp [noAttemptAfterLowLog]
      exact ih b ha hb
    | fileCreated i p =>
      simp [hasLowLog] at ha
      simp [noAttemptAfterLowLog]
      exact ih b ha hb
    | manifestSave m =>
      simp [hasLowLog] at ha
      simp [noAttemptAfterLowLog]
      exact ih b ha hb
    | printEntryDiag e d =>
      simp [hasLowLog] at ha
      simp [noAttemptAfterLowLog]
      exact ih b ha hb

/-- Appending a request-free suffix preserves the property. -/
lemma noAttemptAfter_append_safe : ∀ a b : List Event,
    noAttemptAfterLowLog a = true →
    b.all (fun ev => !ev.isAttemptReq) = true →
    noAttemptAfterLowLog b = true →
    noAttemptAfterLowLog (a ++ b) = true := by
  intro a
  induction a with
  | nil => intro b _ _ hb; simpa using hb
  | cons ev rest ih =>
    intro b ha hsafe hb
    cases ev with
    | progressLog f =>
      by_cases hf : f < MIN_FREE_BYTES
      · simp [noAttemptAfterLowLog, hf] at ha ⊢
        refine ⟨ha, ?_⟩
        intro x hx
        have := List.all_eq_true.mp hsafe x hx
        simpa using this
      · simp [noAttemptAfterLowLog, hf] at ha ⊢
        exact ih b ha hsafe hb
    | attemptReq i u =>
      simp [noAttemptAfterLowLog] at ha
      simp [noAttemptAfterLowLog]
      exact ih b ha hsafe hb
    | sleptBackoff i d =>
      simp [noAttemptAfterLowLog] at ha
      simp [noAttemptAfterLowLog]
      exact ih b ha hsafe hb
    | fileCreated i p =>
      simp [noAttemptAfterLowLog] at ha
      simp [noAttemptAfterLowLog]
      exact ih b ha hsafe hb
    | manifestSave m =>
      simp [noAttemptAfterLowLog] at ha
      simp [noAttemptAfterLowLog]
      exact ih b ha hsafe hb
    | printEntryDiag e d =>
      simp [noAttemptAfterLowLog] at ha
      simp [noAttemptAfterLowLog]
      exact ih b ha hsafe hb

/-- One iteration emits a below-floor progress log only when it aborts
with the low-disk condition, and its own trace satisfies the
no-attempt-after-low-log property. -/
lemma stepEntry_lowlog (env : Env) (mediaDir : String) (idx : Nat) (e : Entry)
    (st : LoopState) :
    ((stepEntry env mediaDir idx e st).2.2 ≠ some AbortKind.lowDisk →
      hasLowLog (stepEntry env mediaDir idx e st).2.1 = false) ∧
    noAttemptAfterLowLog (stepEntry env mediaDir idx e st).2.1 = true := by
  have haux := (download_events_aux (e.url.getD "") idx (env.outcomes idx)).1
  by_cases h1 : strTruthy e.url = false
  · simp [stepEntry, h1, hasLowLog, noAttemptAfterLowLog]
  · by_cases h2 : e.failure.isSome
    · simp [stepEntry, h1, h2, hasLowLog, noAttemptAfterLowLog]
    · by_cases h3 : destination_for_entry mediaDir e ∈ st.fs
      · simp [stepEntry, h1, h2, h3, hasLowLog, noAttemptAfterLowLog]
      · rcases hr : (download_with_backoff (e.url.getD "") idx
            (env.outcomes idx)).result with n | _ | _ | _
        · by_cases h4 : DOWNLOAD_LOG_INTERVAL ≤ st.downloadsSinceLog + 1
          · by_cases h5 : env.freeBytes st.logCalls < MIN_FREE_BYTES
            · constructor
              · intro hab
                simp [stepEntry, h1, h2, h3, hr, h4, h5] at hab
              · have hsh : (stepEntry env mediaDir idx e st).2.1 =
                    ((download_with_backoff (e.url.getD "") idx
                        (env.outcomes idx)).events ++
                      [Event.fileCreated idx (destination_for_entry mediaDir e)]) ++
                      [Event.progressLog (env.freeBytes st.logCalls)] := by
                  simp [stepEntry, h1, h2, h3, hr, h4, h5]
                rw [hsh]
                apply noAttemptAfter_append_noLow
                · rw [hasLowLog_append, haux]
                  simp [hasLowLog]
                · exact noAttemptAfter_singleLog _
            · have hsh : (stepEntry env mediaDir idx e st).2.1 =
                  (download_with_backoff (e.url.getD "") idx
                      (env.outcomes idx)).events ++
                    [Event.fileCreated idx (destination_for_entry mediaDir e),
                      Event.progressLog (env.freeBytes st.logCalls)] := by
                simp [stepEntry, h1, h2, h3, hr, h4, h5]
              have hlow : hasLowLog (stepEntry env mediaDir idx e st).2.1 = false := by
                rw [hsh, hasLowLog_append, haux]
                simp [hasLowLog, h5]
              exact ⟨fun _ => hlow, noAttemptAfter_of_noLow _ hlow⟩
          · have hsh : (stepEntry env mediaDir idx e st).2.1 =
                (download_with_backoff (e.url.getD "") idx
                    (env.outcomes idx)).events ++
                  [Event.fileCreated idx (destination_for_entry mediaDir e)] := by
              simp [stepEntry, h1, h2, h3, hr, h4]
            have hlow : hasLowLog (stepEntry env mediaDir idx e st).2.1 = false := by
              rw [hsh, hasLowLog_append, haux]
              simp [hasLowLog]
            exact ⟨fun _ => hlow, noAttemptAfter_of_noLow _ hlow⟩
        · have hsh : (stepEntry env mediaDir idx e st).2.1 =
              (download_with_backoff (e.url.getD "") idx
                  (env.outcomes idx)).events ++
                [Event.manifestSave (st.media.set idx {e with failure := some 404}),
                  Event.printEntryDiag {e with failure := some 404}
                    (destination_for_entry mediaDir e)] := by
            simp [stepEntry, h1, h2, h3, hr]
          have hlow : hasLowLog (stepEntry env mediaDir idx e st).2.1 = false := by
            rw [hsh, hasLowLog_append, haux]
            simp [hasLowLog]
          exact ⟨fun _ => hlow, noAttemptAfter_of_noLow _ hlow⟩
        · have hsh : (stepEntry env mediaDir idx e st).2.1 =
              (download_with_backoff (e.url.getD "") idx
                  (env.outcomes idx)).events ++
                [Event.printEntryDiag e (destination_for_entry mediaDir e)] := by
            simp [stepEntry, h1, h2, h3, hr]
          have hlow : hasLowLog (stepEntry env mediaDir idx e st).2.1 = false := by
            rw [hsh, hasLowLog_append, haux]
            simp [hasLowLog]
          exact ⟨fun _ => hlow, noAttemptAfter_of_noLow _ hlow⟩
        · have hsh : (stepEntry env mediaDir idx e st).2.1 =
              (download_with_backoff (e.url.getD "") idx
                  (env.outcomes idx)).events := by
            simp [stepEntry, h1, h2, h3, hr]
          have hlow : hasLowLog (stepEntry env mediaDir idx e st).2.1 = false := by
            rw [hsh]; exact haux
          exact ⟨fun _ => hlow, noAttemptAfter_of_noLow _ hlow⟩

/-- A backoff-ceiling abort ends the iteration trace with the
diagnostic print of the in-flight entry and its destination. -/
lemma stepEntry_backoff_diag (env : Env) (mediaDir : String) (idx : Nat)
    (e : Entry) (st : LoopState)
    (h : (stepEntry env mediaDir idx e st).2.2 = some AbortKind.backoff) :
    ∃ pre, (stepEntry env mediaDir idx e st).2.1 =
      pre ++ [Event.printEntryDiag e (destination_for_entry mediaDir e)] := by
  by_cases h1 : strTruthy e.url = false
  · simp [stepEntry, h1] at h
  · by_cases h2 : e.failure.isSome
    · simp [stepEntry, h1, h2] at h
    · by_cases h3 : destination_for_entry mediaDir e ∈ st.fs
      · simp [stepEntry, h1, h2, h3] at h
      · rcases hr : (download_with_backoff (e.url.getD "") idx
            (env.outcomes idx)).result with n | _ | _ | _
        · by_cases h4 : DOWNLOAD_LOG_INTERVAL ≤ st.downloadsSinceLog + 1
          · by_cases h5 : env.freeBytes st.logCalls < MIN_FREE_BYTES <;>
              simp [stepEntry, h1, h2, h3, hr, h4, h5] at h
          · simp [stepEntry, h1, h2, h3, hr, h4] at h
        · simp [stepEntry, h1, h2, h3, hr] at h
        · refine ⟨(download_with_backoff (e.url.getD "") idx
            (env.outcomes idx)).events, ?_⟩
          simp [stepEntry, h1, h2, h3, hr]
        · simp [stepEntry, h1, h2, h3, hr] at h

/-- Loop equation: a non-aborting iteration prepends its events and the
loop continues on the rest. -/
lemma processEntries_cons_none (env : Env) (mediaDir : String) (e : Entry)
    (rest : List Entry) (idx : Nat) (st : LoopState)
    (h : (stepEntry env mediaDir idx e st).2.2 = none) :
    processEntries env mediaDir (e :: rest) idx st =
      ((processEntries env mediaDir rest (idx + 1)
          (stepEntry env mediaDir idx e st).1).1,
       (stepEntry env mediaDir idx e st).2.1 ++
         (processEntries env mediaDir rest (idx + 1)
           (stepEntry env mediaDir idx e st).1).2.1,
       (processEntries env mediaDir rest (idx + 1)
         (stepEntry env mediaDir idx e st).1).2.2) := by
  rcases hs : stepEntry env mediaDir idx e st with ⟨st1, Δ, ab⟩
  have hab : ab = none := by rw [hs] at h; exact h
  subst hab
  rcases hp : processEntries env mediaDir rest (idx + 1) st1 with ⟨a, b, c⟩
  simp [processEntries, hs, hp]

/-- Loop equation: an aborting iteration ends the loop at once. -/
lemma processEntries_cons_abort (env : Env) (mediaDir : String) (e : Entry)
    (rest : List Entry) (idx : Nat) (st : LoopState) (k : AbortKind)
    (h : (stepEntry env mediaDir idx e st).2.2 = some k) :
    processEntries env mediaDir (e :: rest) idx st =
      stepEntry env mediaDir idx e st := by
  rcases hs : stepEntry env mediaDir idx e st with ⟨st1, Δ, ab⟩
  have hab : ab = some k := by rw [hs] at h; exact h
  subst hab
  simp [processEntries, hs]

/-- The loop never removes a file from the destination directory. -/
lemma processEntries_fs_mono (env : Env) (mediaDir : String) :
    ∀ (es : List Entry) (idx : Nat) (st : LoopState) (x : String),
    x ∈ st.fs → x ∈ (processEntries env mediaDir es idx st).1.fs := by
  intro es
  induction es with
  | nil => intro idx st x hx; simpa [processEntries] using hx
  | cons e0 rest ih =>
    intro idx st x hx
    have hx1 : x ∈ (stepEntry env mediaDir idx e0 st).1.fs := by
      rcases stepEntry_fs env mediaDir idx e0 st with h | h <;> rw [h]
      · exact hx
      · exact List.mem_cons_of_mem _ hx
    rcases hab : (stepEntry env mediaDir idx e0 st).2.2 with _ | k
    · rw [processEntries_cons_none env mediaDir e0 rest idx st hab]
      exact ih (idx + 1) _ x hx1
    · rw [processEntries_cons_abort env mediaDir e0 rest idx st k hab]
      exact hx1

/-- Entries at positions below the loop counter are never requested and
keep their manifest records, in memory and on disk. -/
lemma processEntries_keep (env : Env) (mediaDir : String) :
    ∀ (es : List Entry) (idx : Nat) (st : LoopState) (j : Nat) (e : Entry),
    j < idx →
    st.media[j]? = some e → st.diskManifest[j]? = some e →
    (processEntries env mediaDir es idx st).1.media[j]? = some e ∧
    (processEntries env mediaDir es idx st).1.diskManifest[j]? = some e ∧
    ∀ u, Event.attemptReq j u ∉ (processEntries env mediaDir es idx st).2.1 := by
  intro es
  induction es with
  | nil =>
    intro idx st j e hj hm hd
    simp only [processEntries]
    exact ⟨hm, hd, by simp⟩
  | cons e0 rest ih =>
    intro idx st j e hj hm hd
    have hne : idx ≠ j := by omega
    have hm1 : (stepEntry env mediaDir idx e0 st).1.media[j]? = some e := by
      rcases stepEntry_media env mediaDir idx e0 st with h | h <;> rw [h]
      · exact hm
      · rw [List.getElem?_set_ne hne]; exact hm
    have hd1 : (stepEntry env mediaDir idx e0 st).1.diskManifest[j]? = some e := by
      rcases stepEntry_disk env mediaDir idx e0 st with h | ⟨h, _⟩ <;> rw [h]
      · exact hd
      · rw [List.getElem?_set_ne hne]; exact hm
    have hstep : ∀ u, Event.attemptReq j u ∉ (stepEntry env mediaDir idx e0 st).2.1 := by
      intro u hu
      exact hne ((stepEntry_attempt_idx env mediaDir idx e0 st j u hu).symm)
    rcases hab : (stepEntry env mediaDir idx e0 st).2.2 with _ | k
    · rw [processEntries_cons_none env mediaDir e0 rest idx st hab]
      obtain ⟨c1, c2, c3⟩ := ih (idx + 1) _ j e (by omega) hm1 hd1
      refine ⟨c1, c2, ?_⟩
      intro u hu
      rcases List.mem_append.mp hu with hu | hu
      · exact hstep u hu
      · exact c3 u hu
    · rw [processEntries_cons_abort env mediaDir e0 rest idx st k hab]
      exact ⟨hm1, hd1, hstep⟩

/-- For an entry of the worked list whose failure marker is set or whose
destination file exists when the loop starts, the loop issues no request
for its position and keeps its record intact in memory and on disk. -/
lemma processEntries_c1 (env : Env) (mediaDir : String) :
    ∀ (es : List Entry) (idx : Nat) (st : LoopState) (k : Nat) (e : Entry),
    es[k]? = some e →
    (e.failure.isSome = true ∨ destination_for_entry mediaDir e ∈ st.fs) →
    st.media[idx + k]? = some e →
    st.diskManifest[idx + k]? = some e →
    (∀ u, Event.attemptReq (idx + k) u ∉
      (processEntries env mediaDir es idx st).2.1) ∧
    (processEntries env mediaDir es idx st).1.media[idx + k]? = some e ∧
    (processEntries env mediaDir es idx st).1.diskManifest[idx + k]? = some e := by
  intro es
  induction es with
  | nil => intro idx st k e hk; simp at hk
  | cons e0 rest ih =>
    intro idx st k e hk hskip hm hd
    cases k with
    | zero =>
      have he0 : e0 = e := by simpa using hk
      subst he0
      have hs := stepEntry_skip env mediaDir idx e0 st
        (Or.inr (by simpa using hskip))
      have hab : (stepEntry env mediaDir idx e0 st).2.2 = none := by
        rw [hs]
      rw [processEntries_cons_none env mediaDir e0 rest idx st hab]
      simp only [Nat.add_zero] at hm hd ⊢
      have hm1 : (stepEntry env mediaDir idx e0 st).1.media[idx]? = some e0 := by
        rw [hs]; exact hm
      have hd1 : (stepEntry env mediaDir idx e0 st).1.diskManifest[idx]? = some e0 := by
        rw [hs]; exact hd
      obtain ⟨c1, c2, c3⟩ := processEntries_keep env mediaDir rest (idx + 1)
        (stepEntry env mediaDir idx e0 st).1 idx e0 (by omega) hm1 hd1
      refine ⟨?_, c1, c2⟩
      intro u hu
      rcases List.mem_append.mp hu with hu | hu
      · rw [hs] at hu; simp at hu
      · exact c3 u hu
    | succ k' =>
      have hne : idx ≠ idx + (k' + 1) := by omega
      have hm1 : (stepEntry env mediaDir idx e0 st).1.media[idx + (k' + 1)]? =
          some e := by
        rcases stepEntry_media env mediaDir idx e0 st with h | h <;> rw [h]
        · exact hm
        · rw [List.getElem?_set_ne hne]; exact hm
      have hd1 : (stepEntry env mediaDir idx e0 st).1.diskManifest[idx + (k' + 1)]? =
          some e := by
        rcases stepEntry_disk env mediaDir idx e0 st with h | ⟨h, _⟩ <;> rw [h]
        · exact hd
        · rw [List.getElem?_set_ne hne]; exact hm
      have hskip1 : e.failure.isSome = true ∨
          destination_for_entry mediaDir e ∈ (stepEntry env mediaDir idx e0 st).1.fs := by
        rcases hskip with h | h
        · exact Or.inl h
        · refine Or.inr ?_
          rcases stepEntry_fs env mediaDir idx e0 st with hf | hf <;> rw [hf]
          · exact h
          · exact List.mem_cons_of_mem _ h
      have hstep : ∀ u, Event.attemptReq (idx + (k' + 1)) u ∉
          (stepEntry env mediaDir idx e0 st).2.1 := by
        intro u hu
        exact hne ((stepEntry_attempt_idx env mediaDir idx e0 st _ u hu).symm)
      rcases hab : (stepEntry env mediaDir idx e0 st).2.2 with _ | kk
      · rw [processEntries_cons_none env mediaDir e0 rest idx st hab]
        have harith : idx + (k' + 1) = (idx + 1) + k' := by omega
        rw [harith] at hm1 hd1 ⊢
        obtain ⟨c1, c2, c3⟩ := ih (idx + 1) (stepEntry env mediaDir idx e0 st).1
          k' e (by simpa using hk) hskip1 hm1 hd1
        refine ⟨?_, c2, c3⟩
        intro u hu
        rcases List.mem_append.mp hu with hu | hu
        · exact hstep u (by rw [← harith] at hu; exact hu)
        · exact c1 u hu
      · rw [processEntries_cons_abort env mediaDir e0 rest idx st kk hab]
        exact ⟨hstep, hm1, hd1⟩

/-- An entry of the capped manifest is an entry of the manifest. -/
lemma applyLimit_getElem? (lim : Option Nat) (m : List Entry) (i : Nat)
    (e : Entry) (h : (applyLimit lim m)[i]? = some e) : m[i]? = some e := by
  cases lim with
  | none => exact h
  | some n =>
    by_cases hn : n = 0
    · simpa [applyLimit, hn] using h
    · simp only [applyLimit, hn, if_false] at h
      rw [List.getElem?_take] at h
      split at h
      · exact h
      · cases h

/-- How one run is assembled from the entry loop: final state
components, the optional end-of-run progress log, and the exit kind. -/
lemma runDownload_spec (env : Env) (inp : RunInput) (st1 : LoopState)
    (evs : List Event) (ab : Option AbortKind)
    (hemp : inp.media0.isEmpty = false)
    (hp : processEntries env inp.mediaDir (applyLimit inp.limit inp.media0) 0
      ⟨inp.fs0, applyLimit inp.limit inp.media0, inp.media0, 0, 0, 0,
        inp.initBytes, 0⟩ = (st1, evs, ab)) :
    (runDownload env inp).fs = st1.fs ∧
    (runDownload env inp).mediaMem = st1.media ∧
    (runDownload env inp).diskManifest = st1.diskManifest ∧
    (if st1.downloadsSinceLog ≠ 0 then
        (runDownload env inp).events =
          evs ++ [Event.progressLog (env.freeBytes st1.logCalls)]
      else (runDownload env inp).events = evs) ∧
    (ab = none → ¬(st1.downloadsSinceLog ≠ 0 ∧
        env.freeBytes st1.logCalls < MIN_FREE_BYTES) →
      (runDownload env inp).exit = .completed) ∧
    (ab = none → (st1.downloadsSinceLog ≠ 0 ∧
        env.freeBytes st1.logCalls < MIN_FREE_BYTES) →
      (runDownload env inp).exit = .abortLowDisk) ∧
    (ab = some .lowDisk → (runDownload env inp).exit = .abortLowDisk) ∧
    (ab = some .backoff → (runDownload env inp).exit = .abortBackoff) ∧
    (ab = some .envExhausted → (runDownload env inp).exit = .envExhausted) := by
  by_cases hd : st1.downloadsSinceLog ≠ 0
  · by_cases hf : env.freeBytes st1.logCalls < MIN_FREE_BYTES
    · cases ab with
      | none => simp [runDownload, hemp, hp, hd, hf]
      | some k => cases k <;> simp [runDownload, hemp, hp, hd, hf]
    · cases ab with
      | none => simp [runDownload, hemp, hp, hd, hf]
      | some k => cases k <;> simp [runDownload, hemp, hp, hd, hf]
  · cases ab with
    | none => simp [runDownload, hemp, hp, hd]
    | some k => cases k <;> simp [runDownload, hemp, hp, hd]

/-- C1.  Idempotent resume: an entry the orchestrator considers whose
`failure` marker is set, or whose resolved destination file already
exists when the run starts, is never requested over the network, and its
manifest record is unchanged in memory and on disk; moreover the
destination file still exists after the run, and the marker is still
set, so the same holds in every subsequent run until the marker is
cleared or the file removed. -/
theorem c1_idempotent_resume (env : Env) (inp : RunInput) (idx : Nat) (e : Entry)
    (hm : (applyLimit inp.limit inp.media0)[idx]? = some e)
    (hskip : e.failure.isSome = true ∨
      destination_for_entry inp.mediaDir e ∈ inp.fs0) :
    (∀ u, Event.attemptReq idx u ∉ (runDownload env inp).events) ∧
    (runDownload env inp).mediaMem[idx]? = some e ∧
    (runDownload env inp).diskManifest[idx]? = some e ∧
    (destination_for_entry inp.mediaDir e ∈ inp.fs0 →
      destination_for_entry inp.mediaDir e ∈ (runDownload env inp).fs) := by
  by_cases hemp : inp.media0.isEmpty = true
  · have h0 : inp.media0 = [] := List.isEmpty_iff.mp hemp
    have hm0 : inp.media0[idx]? = some e := applyLimit_getElem? _ _ _ _ hm
    rw [h0] at hm0
    simp at hm0
  · have hemp' : inp.media0.isEmpty = false := by
      simpa using hemp
    have hm0 : inp.media0[idx]? = some e := applyLimit_getElem? _ _ _ _ hm
    rcases hp : processEntries env inp.mediaDir (applyLimit inp.limit inp.media0) 0
      ⟨inp.fs0, applyLimit inp.limit inp.media0, inp.media0, 0, 0, 0,
        inp.initBytes, 0⟩ with ⟨st1, evs, ab⟩
    obtain ⟨hfs, hmem, hdisk, hevs, _⟩ :=
      runDownload_spec env inp st1 evs ab hemp' hp
    have hkey := processEntries_c1 env inp.mediaDir
      (applyLimit inp.limit inp.media0) 0
      ⟨inp.fs0, applyLimit inp.limit inp.media0, inp.media0, 0, 0, 0,
        inp.initBytes, 0⟩ idx e hm hskip (by simpa using hm) (by simpa using hm0)
    rw [hp] at hkey
    obtain ⟨k1, k2, k3⟩ := hkey
    have hmono := processEntries_fs_mono env inp.mediaDir
      (applyLimit inp.limit inp.media0) 0
      ⟨inp.fs0, applyLimit inp.limit inp.media0, inp.media0, 0, 0, 0,
        inp.initBytes, 0⟩ (destination_for_entry inp.mediaDir e)
    rw [hp] at hmono
    refine ⟨?_, ?_, ?_, ?_⟩
    · intro u hu
      split at hevs <;> rw [hevs] at hu
      · rcases List.mem_append.mp hu with hu | hu
        · exact k1 u (by simpa using hu)
        · simp at hu
      · exact k1 u (by simpa using hu)
    · rw [hmem]; simpa using k2
    · rw [hdisk]; simpa using k3
    · intro hin
      rw [hfs]
      exact hmono hin

/-- Witness for C1: with the first entry already marked failed, a run
issues no request for it and keeps its record. -/
theorem c1_witness :
    (∀ u, Event.attemptReq 0 u ∉ (runDownload envAllOk inpC1w).events) ∧
    (runDownload envAllOk inpC1w).mediaMem[0]? = some entryF ∧
    (runDownload envAllOk inpC1w).diskManifest[0]? = some entryF := by
  have h := c1_idempotent_resume envAllOk inpC1w 0 entryF (by decide)
    (Or.inl (by decide))
  exact ⟨h.1, h.2.1, h.2.2.1⟩

/-- C4.  Not-found handling: when a pending entry is reached and the
remote answers with status 404 (possibly after transient attempts), the
permanent failure is propagated at once (the 404 arrives on the last
attempt, every earlier attempt was transient), exactly one manifest
rewrite happens and it carries the entry marked with `failure`, no file
is created at the destination, and the loop continues with the next
entry. -/
theorem c4_not_found_isolated (env : Env) (mediaDir : String) (idx : Nat)
    (e : Entry) (st : LoopState) (rest : List Entry)
    (hurl : strTruthy e.url = true)
    (hfail : e.failure = none)
    (hdest : destination_for_entry mediaDir e ∉ st.fs)
    (hmedia : st.media[idx]? = some e)
    (h404 : (download_with_backoff (e.url.getD "") idx
      (env.outcomes idx)).result = .notFound) :
    (stepEntry env mediaDir idx e st).2.2 = none ∧
    (stepEntry env mediaDir idx e st).1.media[idx]? =
      some {e with failure := some 404} ∧
    (stepEntry env mediaDir idx e st).1.diskManifest =
      (stepEntry env mediaDir idx e st).1.media ∧
    (stepEntry env mediaDir idx e st).1.fs = st.fs ∧
    (stepEntry env mediaDir idx e st).2.1.filter Event.isManifestSave =
      [Event.manifestSave (st.media.set idx {e with failure := some 404})] ∧
    (stepEntry env mediaDir idx e st).2.1.filter Event.isFileCreated = [] ∧
    ((stepEntry env mediaDir idx e st).2.1.filter Event.isAttemptReq).length =
      (download_with_backoff (e.url.getD "") idx (env.outcomes idx)).attempts ∧
    (∃ k o, (download_with_backoff (e.url.getD "") idx
        (env.outcomes idx)).attempts = k + 1 ∧
      (env.outcomes idx)[k]? = some o ∧ classifyOutcome o = .permanent ∧
      ∀ j, j < k → ∃ oj mj, (env.outcomes idx)[j]? = some oj ∧
        classifyOutcome oj = .transient mj) ∧
    processEntries env mediaDir (e :: rest) idx st =
      ((processEntries env mediaDir rest (idx + 1)
          (stepEntry env mediaDir idx e st).1).1,
       (stepEntry env mediaDir idx e st).2.1 ++
         (processEntries env mediaDir rest (idx + 1)
           (stepEntry env mediaDir idx e st).1).2.1,
       (processEntries env mediaDir rest (idx + 1)
         (stepEntry env mediaDir idx e st).1).2.2) := by
  have h1 : ¬ strTruthy e.url = false := by simp [hurl]
  have h2 : ¬ e.failure.isSome = true := by simp [hfail]
  have haux := download_events_aux (e.url.getD "") idx (env.outcomes idx)
  have hcnt := download_events_count (e.url.getD "") idx (env.outcomes idx)
  have hidx : idx < st.media.length := by
    rw [List.getElem?_eq_some] at hmedia
    exact hmedia.1
  have hab : (stepEntry env mediaDir idx e st).2.2 = none := by
    simp [stepEntry, h1, h2, hdest, h404]
  refine ⟨hab, ?_, ?_, ?_, ?_, ?_, ?_, ?_, ?_⟩
  · simp only [stepEntry, h1, h2, hdest, h404]
    simp [List.getElem?_set_self, hidx]
  · simp [stepEntry, h1, h2, hdest, h404]
  · simp [stepEntry, h1, h2, hdest, h404]
  · simp [stepEntry, h1, h2, hdest, h404, List.filter_append, haux.2.1,
      Event.isManifestSave, Event.isPrintEntryDiag]
  · simp [stepEntry, h1, h2, hdest, h404, List.filter_append, haux.2.2.1,
      Event.isFileCreated]
  · simp [stepEntry, h1, h2, hdest, h404, List.filter_append, hcnt,
      Event.isAttemptReq]
  · exact backoffLoop_notFound_char (e.url.getD "") idx (env.outcomes idx) 5 h404
  · exact processEntries_cons_none env mediaDir e rest idx st hab

/-- Witness for C4: a first-attempt 404 on `entryA` marks it, rewrites
the manifest once, creates no file, and does not abort. -/
theorem c4_witness :
    (stepEntry envFirst404 "m" 0 entryA
      ⟨[], [entryA], [entryA], 0, 0, 0, 0, 0⟩).2.2 = none ∧
    (stepEntry envFirst404 "m" 0 entryA
      ⟨[], [entryA], [entryA], 0, 0, 0, 0, 0⟩).1.media[0]? = some entryF ∧
    (stepEntry envFirst404 "m" 0 entryA
        ⟨[], [entryA], [entryA], 0, 0, 0, 0, 0⟩).2.1.filter
        Event.isManifestSave = [Event.manifestSave [entryF]] ∧
    (stepEntry envFirst404 "m" 0 entryA
      ⟨[], [entryA], [entryA], 0, 0, 0, 0, 0⟩).1.fs = [] := by
  have h := c4_not_found_isolated envFirst404 "m" 0 entryA
    ⟨[], [entryA], [entryA], 0, 0, 0, 0, 0⟩ [] (by decide) rfl (by decide)
    (by decide) (by decide)
  exact ⟨h.1, h.2.1.trans (by decide), h.2.2.2.2.1.trans (by decide),
    h.2.2.2.1.trans (by decide)⟩

/-- The entry loop emits a below-floor progress log only when it aborts
with the low-disk condition, and no network attempt follows a
below-floor log inside its trace. -/
lemma processEntries_lowlog (env : Env) (mediaDir : String) :
    ∀ (es : List Entry) (idx : Nat) (st : LoopState),
    ((processEntries env mediaDir es idx st).2.2 ≠ some AbortKind.lowDisk →
      hasLowLog (processEntries env mediaDir es idx st).2.1 = false) ∧
    noAttemptAfterLowLog (processEntries env mediaDir es idx st).2.1 = true := by
  intro es
  induction es with
  | nil => intro idx st; simp [processEntries, hasLowLog]; rfl
  | cons e0 rest ih =>
    intro idx st
    obtain ⟨hstep1, hstep2⟩ := stepEntry_lowlog env mediaDir idx e0 st
    rcases hab : (stepEntry env mediaDir idx e0 st).2.2 with _ | k
    · rw [processEntries_cons_none env mediaDir e0 rest idx st hab]
      obtain ⟨ih1, ih2⟩ := ih (idx + 1) (stepEntry env mediaDir idx e0 st).1
      have hnolow : hasLowLog (stepEntry env mediaDir idx e0 st).2.1 = false :=
        hstep1 (by rw [hab]; intro hc; cases hc)
      constructor
      · intro hab2
        rw [hasLowLog_append, hnolow, ih1 hab2]
        rfl
      · exact noAttemptAfter_append_noLow _ _ hnolow ih2
    · rw [processEntries_cons_abort env mediaDir e0 rest idx st k hab]
      constructor
      · intro hab2
        apply hstep1
        rw [hab]
        intro hc
        exact hab2 (hab.trans hc)
      · exact hstep2

/-- C5 amended.  Whenever a periodic free-space check (run every 50
successful downloads, and once more at run end) observes free space
below the 10 GiB floor, the run aborts: no download attempt occurs
anywhere after that observation in the trace, and the run does not end
with the normal completion report.  (As stated the claim is stronger —
see the counterexample: free space is only sampled at these checks, so
up to an interval's worth of downloads can proceed while space is
actually low.) -/
theorem c5_low_space_check_aborts (env : Env) (inp : RunInput) :
    noAttemptAfterLowLog (runDownload env inp).events = true ∧
    (hasLowLog (runDownload env inp).events = true →
      (runDownload env inp).exit ≠ .completed) := by
  by_cases hemp : inp.media0.isEmpty = true
  · have hrun : runDownload env inp =
        ⟨inp.fs0, inp.media0, inp.media0, 0, 0, 0, inp.initBytes, [],
          .emptyManifest⟩ := by
      simp [runDownload, hemp]
    rw [hrun]
    exact ⟨rfl, by intro h; cases h⟩
  · have hemp' : inp.media0.isEmpty = false := by simpa using hemp
    rcases hp : processEntries env inp.mediaDir (applyLimit inp.limit inp.media0) 0
      ⟨inp.fs0, applyLimit inp.limit inp.media0, inp.media0, 0, 0, 0,
        inp.initBytes, 0⟩ with ⟨st1, evs, ab⟩
    obtain ⟨_, _, _, hevs, _, hex2, hex3, hex4, hex5⟩ :=
      runDownload_spec env inp st1 evs ab hemp' hp
    have hpl := processEntries_lowlog env inp.mediaDir
      (applyLimit inp.limit inp.media0) 0
      ⟨inp.fs0, applyLimit inp.limit inp.media0, inp.media0, 0, 0, 0,
        inp.initBytes, 0⟩
    rw [hp] at hpl
    obtain ⟨hl1, hl2⟩ := hpl
    constructor
    · split at hevs <;> rw [hevs]
      · exact noAttemptAfter_append_safe _ _ hl2 (by simp [Event.isAttemptReq])
          (noAttemptAfter_singleLog _)
      · exact hl2
    · intro hlow
      cases ab with
      | none =>
        have hnolow : hasLowLog evs = false := hl1 (by intro hc; cases hc)
        split at hevs <;> rw [hevs] at hlow
        · rw [hasLowLog_append, hnolow] at hlow
          simp [hasLowLog] at hlow
          have hcond : st1.downloadsSinceLog ≠ 0 ∧
              env.freeBytes st1.logCalls < MIN_FREE_BYTES := by
            constructor
            · assumption
            · exact hlow
          rw [hex2 rfl hcond]
          intro hc; cases hc
        · rw [hnolow] at hlow; cases hlow
      | some k =>
        cases k
        · rw [hex4 rfl]; intro hc; cases hc
        · rw [hex3 rfl]; intro hc; cases hc
        · rw [hex5 rfl]; intro hc; cases hc

/-- Witness for C5 amended: a run that observes 0 bytes free at its
end-of-run check does not exit with the completion report. -/
theorem c5_witness :
    (runDownload envLowFree inpC5).exit ≠ .completed := by
  have h := c5_low_space_check_aborts envLowFree inpC5
  exact h.2 (by decide)

/-- Counterexample for C5 as stated: with free space below the floor at
every observation (the environment always reports 0 bytes), a 2-entry
run still issues the second entry's download — the first free-space
sample only happens at the end-of-run check, which then aborts.  So the
run does not abort before further downloads whenever free space is
below the floor; it aborts only when a periodic check observes it. -/
theorem c5_counterexample :
    envLowFree.freeBytes 0 < MIN_FREE_BYTES ∧
    envLowFree.freeBytes 1 < MIN_FREE_BYTES ∧
    Event.attemptReq 1 "u1" ∈ (runDownload envLowFree inpC5).events ∧
    (runDownload envLowFree inpC5).events.getLast? =
      some (Event.progressLog 0) ∧
    (runDownload envLowFree inpC5).exit = .abortLowDisk := by decide

/-- `sameExceptFailure` is reflexive. -/
lemma sameExceptFailure_refl (a : Entry) : sameExceptFailure a a :=
  ⟨rfl, rfl, rfl, rfl⟩

/-- `sameExceptFailure` is transitive. -/
lemma sameExceptFailure_trans {a b c : Entry}
    (h1 : sameExceptFailure a b) (h2 : sameExceptFailure b c) :
    sameExceptFailure a c :=
  ⟨h1.1.trans h2.1, h1.2.1.trans h2.2.1, h1.2.2.1.trans h2.2.2.1,
    h1.2.2.2.trans h2.2.2.2⟩

/-- `entriesFrame` is reflexive. -/
lemma entriesFrame_refl (m : List Entry) : entriesFrame m m :=
  ⟨rfl, fun _ a h => ⟨a, h, sameExceptFailure_refl a⟩⟩

/-- `entriesFrame` is transitive. -/
lemma entriesFrame_trans {m1 m2 m3 : List Entry}
    (h1 : entriesFrame m1 m2) (h2 : entriesFrame m2 m3) :
    entriesFrame m1 m3 := by
  refine ⟨h2.1.trans h1.1, ?_⟩
  intro j a ha
  obtain ⟨b, hb, hba⟩ := h2.2 j a ha
  obtain ⟨c, hc, hcb⟩ := h1.2 j b hb
  exact ⟨c, hc, sameExceptFailure_trans hcb hba⟩

/-- Setting the `failure` field of one entry is a frame-respecting
mutation. -/
lemma entriesFrame_set (m : List Entry) (i : Nat) (e : Entry) (v : Option Nat)
    (h : m[i]? = some e) : entriesFrame m (m.set i {e with failure := v}) := by
  refine ⟨List.length_set m i _, ?_⟩
  intro j a ha
  by_cases hij : i = j
  · subst hij
    have hlen : i < m.length := by
      rw [List.getElem?_eq_some] at h
      exact h.1
    rw [List.getElem?_set_eq_of_lt _ hlen] at ha
    have hae : {e with failure := v} = a := by
      simpa using ha
    subst hae
    exact ⟨e, h, rfl, rfl, rfl, rfl⟩
  · rw [List.getElem?_set_ne hij] at ha
    exact ⟨a, ha, sameExceptFailure_refl a⟩

/-- Over the entry loop, the in-memory manifest changes only in
`failure` fields; the manifest file is either untouched or a
failure-only mutation of the worked list; and if no backoff run ends in
`notFound`, nothing is written at all. -/
lemma processEntries_c6 (env : Env) (mediaDir : String) :
    ∀ (es : List Entry) (idx : Nat) (st : LoopState),
    (∀ k : Nat, es[k]? = st.media[idx + k]?) →
    entriesFrame st.media (processEntries env mediaDir es idx st).1.media ∧
    ((processEntries env mediaDir es idx st).1.diskManifest = st.diskManifest ∨
      entriesFrame st.media
        (processEntries env mediaDir es idx st).1.diskManifest) ∧
    ((∀ (i k2 : Nat) (u : String),
        (download_with_backoff u i (env.outcomes k2)).result ≠ .notFound) →
      (processEntries env mediaDir es idx st).1.media = st.media ∧
      (processEntries env mediaDir es idx st).1.diskManifest = st.diskManifest ∧
      (processEntries env mediaDir es idx st).2.1.filter
        Event.isManifestSave = []) := by
  intro es
  induction es with
  | nil =>
    intro idx st _
    exact ⟨entriesFrame_refl _, Or.inl rfl, fun _ => ⟨rfl, rfl, rfl⟩⟩
  | cons e0 rest ih =>
    intro idx st hsync
    have hm0 : st.media[idx]? = some e0 := by
      have := hsync 0
      simpa using this.symm
    have hframe1 : entriesFrame st.media (stepEntry env mediaDir idx e0 st).1.media := by
      rcases stepEntry_media env mediaDir idx e0 st with h | h <;> rw [h]
      · exact entriesFrame_refl _
      · exact entriesFrame_set st.media idx e0 (some 404) hm0
    have hdisk1 : (stepEntry env mediaDir idx e0 st).1.diskManifest = st.diskManifest ∨
        entriesFrame st.media (stepEntry env mediaDir idx e0 st).1.diskManifest := by
      rcases stepEntry_disk env mediaDir idx e0 st with h | ⟨h, _⟩
      · exact Or.inl h
      · rw [h]
        exact Or.inr (entriesFrame_set st.media idx e0 (some 404) hm0)
    have hsync1 : ∀ k : Nat,
        rest[k]? = (stepEntry env mediaDir idx e0 st).1.media[(idx + 1) + k]? := by
      intro k
      have hne : idx ≠ (idx + 1) + k := by omega
      have hk := hsync (k + 1)
      have harith : idx + (k + 1) = (idx + 1) + k := by omega
      rw [harith] at hk
      rcases stepEntry_media env mediaDir idx e0 st with h | h <;> rw [h]
      · simpa using hk
      · rw [List.getElem?_set_ne hne]
        simpa using hk
    rcases hab : (stepEntry env mediaDir idx e0 st).2.2 with _ | k
    · rw [processEntries_cons_none env mediaDir e0 rest idx st hab]
      obtain ⟨ih1, ih2, ih3⟩ := ih (idx + 1) (stepEntry env mediaDir idx e0 st).1 hsync1
      refine ⟨entriesFrame_trans hframe1 ih1, ?_, ?_⟩
      · rcases ih2 with h | h
        · rw [h]
          exact hdisk1
        · exact Or.inr (entriesFrame_trans hframe1 h)
      · intro hno
        obtain ⟨s1, s2, s3⟩ := stepEntry_no_save env mediaDir idx e0 st
          (hno idx idx (e0.url.getD ""))
        obtain ⟨t1, t2, t3⟩ := ih3 hno
        refine ⟨?_, ?_, ?_⟩
        · rw [t1, s1]
        · rw [t2, s2]
        · rw [List.filter_append, s3, t3]
          rfl
    · rw [processEntries_cons_abort env mediaDir e0 rest idx st k hab]
      refine ⟨hframe1, hdisk1, ?_⟩
      intro hno
      exact stepEntry_no_save env mediaDir idx e0 st (hno idx idx (e0.url.getD ""))

/-- C6 amended.  For a run without an effective entry cap (no `--limit`,
limit 0, or a limit at least the manifest length), the run mutates only
the `failure` fields of manifest entries, in memory and on disk, and
the manifest file is rewritten only after a permanent failure: a run in
which no download yields not-found performs no rewrite at all, leaving
the manifest file byte-for-byte unchanged.  (With a smaller cap the
claim fails: a rewrite persists only the capped prefix — see the
counterexample.) -/
theorem c6_manifest_frame (env : Env) (inp : RunInput)
    (hcap : applyLimit inp.limit inp.media0 = inp.media0) :
    entriesFrame inp.media0 (runDownload env inp).mediaMem ∧
    ((runDownload env inp).diskManifest = inp.media0 ∨
      entriesFrame inp.media0 (runDownload env inp).diskManifest) ∧
    ((∀ (i k : Nat) (u : String),
        (download_with_backoff u i (env.outcomes k)).result ≠ .notFound) →
      (runDownload env inp).diskManifest = inp.media0 ∧
      (runDownload env inp).events.filter Event.isManifestSave = []) := by
  by_cases hemp : inp.media0.isEmpty = true
  · have hrun : runDownload env inp =
        ⟨inp.fs0, inp.media0, inp.media0, 0, 0, 0, inp.initBytes, [],
          .emptyManifest⟩ := by
      simp [runDownload, hemp]
    rw [hrun]
    exact ⟨entriesFrame_refl _, Or.inl rfl, fun _ => ⟨rfl, rfl⟩⟩
  · have hemp' : inp.media0.isEmpty = false := by simpa using hemp
    rcases hp : processEntries env inp.mediaDir (applyLimit inp.limit inp.media0) 0
      ⟨inp.fs0, applyLimit inp.limit inp.media0, inp.media0, 0, 0, 0,
        inp.initBytes, 0⟩ with ⟨st1, evs, ab⟩
    obtain ⟨_, hmem, hdisk, hevs, _⟩ := runDownload_spec env inp st1 evs ab hemp' hp
    have hc6 := processEntries_c6 env inp.mediaDir
      (applyLimit inp.limit inp.media0) 0
      ⟨inp.fs0, applyLimit inp.limit inp.media0, inp.media0, 0, 0, 0,
        inp.initBytes, 0⟩ (by intro k; simp)
    rw [hp] at hc6
    obtain ⟨f1, f2, f3⟩ := hc6
    rw [hcap] at f1 f2 f3
    refine ⟨?_, ?_, ?_⟩
    · rw [hmem]
      exact f1
    · rw [hdisk]
      exact f2
    · intro hno
      obtain ⟨t1, t2, t3⟩ := f3 hno
      refine ⟨by rw [hdisk, t2], ?_⟩
      split at hevs <;> rw [hevs]
      · rw [List.filter_append, t3]
        simp [Event.isManifestSave]
      · exact t3

/-- Witness for C6 amended: an uncapped all-success run leaves the
manifest file untouched and performs no rewrite. -/
theorem c6_witness :
    (runDownload envAllOk inpC5).diskManifest = [entryA, entryB] ∧
    (runDownload envAllOk inpC5).events.filter Event.isManifestSave = [] := by
  have h := c6_manifest_frame envAllOk inpC5 rfl
  have hno : ∀ (i k : Nat) (u : String),
      (download_with_backoff u i (envAllOk.outcomes k)).result ≠ .notFound := by
    intro i k u
    simp [envAllOk, download_with_backoff, backoffLoop, classifyOutcome]
  exact h.2.2 hno

/-- Counterexample for C6 as stated: a capped run (2 entries, cap 1)
whose first entry is 404 rewrites the manifest file with only the
capped prefix — the on-disk manifest shrinks from 2 entries to 1, a
mutation beyond the `failure` field of entries. -/
theorem c6_counterexample :
    inpCap1.media0.length = 2 ∧
    (runDownload envFirst404 inpCap1).events.filter Event.isManifestSave =
      [Event.manifestSave [entryF]] ∧
    (runDownload envFirst404 inpCap1).diskManifest.length = 1 := by decide

/-- If the entry loop aborts with the backoff-ceiling condition, its
trace ends with the diagnostic print of the in-flight entry and its
computed destination. -/
lemma processEntries_backoff_diag (env : Env) (mediaDir : String) :
    ∀ (es : List Entry) (idx : Nat) (st : LoopState),
    (processEntries env mediaDir es idx st).2.2 = some AbortKind.backoff →
    ∃ e pre, (processEntries env mediaDir es idx st).2.1 =
      pre ++ [Event.printEntryDiag e (destination_for_entry mediaDir e)] := by
  intro es
  induction es with
  | nil => intro idx st h; cases h
  | cons e0 rest ih =>
    intro idx st h
    rcases hab : (stepEntry env mediaDir idx e0 st).2.2 with _ | k
    · rw [processEntries_cons_none env mediaDir e0 rest idx st hab] at h ⊢
      obtain ⟨e, pre, hpre⟩ := ih (idx + 1) (stepEntry env mediaDir idx e0 st).1 h
      refine ⟨e, (stepEntry env mediaDir idx e0 st).2.1 ++ pre, ?_⟩
      rw [hpre, List.append_assoc]
    · rw [processEntries_cons_abort env mediaDir e0 rest idx st k hab] at h ⊢
      have hk : k = AbortKind.backoff := by
        rw [hab] at h
        simpa using h
      subst hk
      obtain ⟨pre, hpre⟩ := stepEntry_backoff_diag env mediaDir idx e0 st hab
      exact ⟨e0, pre, hpre⟩

/-- C9 amended.  A backoff-ceiling abort prints the in-flight entry's
full descriptor together with its computed destination path before the
run stops: after that print the trace holds no further request, rewrite
or file creation (at most the end-of-run progress log).  The low-disk
abort, by contrast, prints no descriptor at all — see the
counterexample. -/
theorem c9_backoff_abort_prints_diag (env : Env) (inp : RunInput)
    (h : (runDownload env inp).exit = .abortBackoff) :
    ∃ e pre post,
      (runDownload env inp).events =
        pre ++ Event.printEntryDiag e (destination_for_entry inp.mediaDir e) ::
          post ∧
      post.all (fun ev => !ev.isAttemptReq && !ev.isManifestSave &&
        !ev.isFileCreated) = true := by
  by_cases hemp : inp.media0.isEmpty = true
  · have hrun : (runDownload env inp).exit = .emptyManifest := by
      simp [runDownload, hemp]
    rw [hrun] at h
    cases h
  · have hemp' : inp.media0.isEmpty = false := by simpa using hemp
    rcases hp : processEntries env inp.mediaDir (applyLimit inp.limit inp.media0) 0
      ⟨inp.fs0, applyLimit inp.limit inp.media0, inp.media0, 0, 0, 0,
        inp.initBytes, 0⟩ with ⟨st1, evs, ab⟩
    obtain ⟨_, _, _, hevs, hex1, hex2, hex3, hex4, hex5⟩ :=
      runDownload_spec env inp st1 evs ab hemp' hp
    have hab : ab = some AbortKind.backoff := by
      cases ab with
      | none =>
        by_cases hcond : st1.downloadsSinceLog ≠ 0 ∧
            env.freeBytes st1.logCalls < MIN_FREE_BYTES
        · rw [hex2 rfl hcond] at h; cases h
        · rw [hex1 rfl hcond] at h; cases h
      | some k =>
        cases k
        · rfl
        · rw [hex3 rfl] at h; cases h
        · rw [hex5 rfl] at h; cases h
    have hd := processEntries_backoff_diag env inp.mediaDir
      (applyLimit inp.limit inp.media0) 0
      ⟨inp.fs0, applyLimit inp.limit inp.media0, inp.media0, 0, 0, 0,
        inp.initBytes, 0⟩ (by rw [hp]; exact hab)
    rw [hp] at hd
    obtain ⟨e, pre, hpre0⟩ := hd
    have hpre : evs = pre ++
        [Event.printEntryDiag e (destination_for_entry inp.mediaDir e)] := hpre0
    split at hevs <;> rw [hevs, hpre]
    · refine ⟨e, pre, [Event.progressLog (env.freeBytes st1.logCalls)], ?_, ?_⟩
      · rw [List.append_assoc]
        rfl
      · simp [Event.isAttemptReq, Event.isManifestSave, Event.isFileCreated]
    · exact ⟨e, pre, [], rfl, rfl⟩

/-- Witness for C9 amended: a run whose single entry exhausts the
backoff ceiling aborts and prints that entry's diagnostic. -/
theorem c9_witness :
    (runDownload envAllFail inpOneA).exit = .abortBackoff ∧
    ∃ e pre post,
      (runDownload envAllFail inpOneA).events =
        pre ++ Event.printEntryDiag e (destination_for_entry "m" e) :: post ∧
      post.all (fun ev => !ev.isAttemptReq && !ev.isManifestSave &&
        !ev.isFileCreated) = true :=
  ⟨by decide, c9_backoff_abort_prints_diag envAllFail inpOneA (by decide)⟩

/-- Counterexample for C9 as stated: a 51-entry run that hits the
low-disk condition at the 50-download progress check aborts mid-manifest
without printing any entry descriptor or destination. -/
theorem c9_counterexample :
    (runDownload envLowFree inpC9).exit = .abortLowDisk ∧
    (runDownload envLowFree inpC9).events.filter Event.isPrintEntryDiag = [] ∧
    (runDownload envLowFree inpC9).completedEntries = 50 ∧
    inpC9.media0.length = 51 := by decide

/-- C8, the code bug evaluated: with manifest `[entryA, entryB]` and cap
1, a 404 on the first entry rewrites the manifest file as the capped
list only — `entryB`, beyond the cap, is deleted from the manifest
file, contradicting the claim that entries beyond the cap are never
touched. -/
theorem c8_cap_truncates_manifest :
    inpCap1.media0.length = 2 ∧
    inpCap1.media0[1]? = some entryB ∧
    (runDownload envFirst404 inpCap1).diskManifest = [entryF] ∧
    (runDownload envFirst404 inpCap1).diskManifest[1]? = none := by decide

end FandomCli
